import Mathlib

/-!
Verification of the 123pan chunked-upload engine (`src/uploader.ts`).

The development shallowly embeds the `Uploader` class: the chunk planner
(`upload` lines 211-213 together with the loop in `uploadChunks` lines
359-382), the per-chunk retry loop (`uploadChunk`), the chunk reader
(`readChunk`), the completion poller (`pollUploadStatus`), the p-queue
based chunk pass (`uploadChunks`), the session control surface
(`pause` / `resume` / `cancel`) and the end-to-end `upload` pipeline.

Conventions used throughout:
* byte counts and indices are `Nat`;
* JavaScript exceptions become `Except String`;
* the remote service is an oracle supplied as a function argument
  (`create`, per-attempt chunk outcomes, `finish`, `merge`);
* a promise that never settles is represented explicitly (`none`,
  `BodyOut.hangs`), following p-queue's documented `idle` semantics:
  `idle` is emitted when a finishing task leaves the queue empty with
  no pending work (`_tryToStartAnother`), so a queue to which no task
  was ever added never emits it.
-/

namespace Pan123

/-- Session lifecycle status, `Uploader.status` (uploader.ts lines 45-51). -/
inductive Status
  | pending
  | running
  | paused
  | completed
  | error
  | cancel
deriving DecidableEq, Repr

/-- Per-chunk task status, `UploadChunkTask.status` (uploader.ts line 38). -/
inductive TaskSt
  | pending
  | running
  | completed
  | error
  | abort
deriving DecidableEq, Repr

/-- Events of the `UploaderEvents` emitter (uploader.ts lines 10-25).
Progress events are tagged with their phase; the `uploading` tag carries
the 1-based part number from `onUploadProgress` (line 473). -/
inductive Event
  | start
  | progressInit
  | progressPreupload
  | progressUploading (part : Nat)
  | progressMerging
  | progressComplete
  | completedEv (fileId filename : String)
  | errorEv (msg : String)
  | cancelEv
  | debug
deriving DecidableEq, Repr

/-- Remote operations the uploader invokes (§6 of the design):
task creation (`/upload/v1/file/create`), per-chunk destination URL
(`/upload/v1/file/get_upload_url`), the chunk byte transfer (the
`axios.put` to the presigned URL), completion
(`/upload/v1/file/upload_complete`) and merge polling
(`/upload/v1/file/check_merge`). -/
inductive RemoteOp
  | createOp
  | getUploadUrlOp (part : Nat)
  | putOp (part : Nat)
  | finishOp
  | mergeOp
deriving DecidableEq, Repr

/-! ## Chunk planner

`upload` computes `chunks = Math.ceil(this.size / this.chunkSize)`
(line 212) and `uploadChunks` loops `i = 0 .. totalChunks-1` with
`start = i * chunkSize`, `end = min(start + chunkSize, size)`,
`chunkSize = end - start`, `partNumber = i + 1` (lines 359-381). -/

/-- The chunk count `Math.ceil(size / chunkSize)` on naturals, `chunkSize > 0` intended. -/
def chunksCount (size chunkSize : Nat) : Nat :=
  (size + chunkSize - 1) / chunkSize

/-- Length of chunk `i`: `min(i*chunkSize + chunkSize, size) - i*chunkSize`
(uploader.ts lines 360-362). -/
def chunkLen (size chunkSize i : Nat) : Nat :=
  min (i * chunkSize + chunkSize) size - i * chunkSize

/-- One planned chunk descriptor (`UploadChunkTask`, offset and length
fields, with its 1-based part number). -/
structure ChunkDesc where
  partNumber : Nat
  start : Nat
  chunkSize : Nat
deriving DecidableEq, Repr

/-- The ordered chunk plan built by the loop in `uploadChunks`
(lines 359-382). -/
def planChunks (size chunkSize : Nat) : List ChunkDesc :=
  (List.range (chunksCount size chunkSize)).map (fun i =>
    { partNumber := i + 1
      start := i * chunkSize
      chunkSize := chunkLen size chunkSize i })

/-- The Chunk Planner contract of §4.1 / §8, spelled out over `planChunks`:
ordered descriptors, 1-based sequence numbers, count `ceil(size/chunkSize)`,
tiling `[0, size)` exactly once with no gaps or overlaps (consecutive ranges,
every byte in exactly one chunk, all lengths positive), and the final chunk's
length is `size % chunkSize` unless that remainder is 0, in which case it is
`chunkSize`. -/
def ChunkPlanSpec (size chunkSize : Nat) : Prop :=
  (planChunks size chunkSize).length = chunksCount size chunkSize ∧
  (∀ i (h : i < (planChunks size chunkSize).length),
    ((planChunks size chunkSize).get ⟨i, h⟩).partNumber = i + 1) ∧
  (∀ i (h : i < (planChunks size chunkSize).length),
    ((planChunks size chunkSize).get ⟨i, h⟩).start = i * chunkSize) ∧
  (∀ i (h : i < (planChunks size chunkSize).length),
    ((planChunks size chunkSize).get ⟨i, h⟩).start
      + ((planChunks size chunkSize).get ⟨i, h⟩).chunkSize
      = min ((i + 1) * chunkSize) size) ∧
  (∀ i (h : i < (planChunks size chunkSize).length),
    0 < ((planChunks size chunkSize).get ⟨i, h⟩).chunkSize) ∧
  (∀ k, k < size → ∃! i, ∃ h : i < (planChunks size chunkSize).length,
    ((planChunks size chunkSize).get ⟨i, h⟩).start ≤ k ∧
    k < ((planChunks size chunkSize).get ⟨i, h⟩).start
        + ((planChunks size chunkSize).get ⟨i, h⟩).chunkSize) ∧
  (∀ hne : planChunks size chunkSize ≠ [],
    ((planChunks size chunkSize).getLast hne).chunkSize =
      if size % chunkSize = 0 then chunkSize else size % chunkSize)

/-! ## Completion poller

`pollUploadStatus` (uploader.ts lines 581-623): a `while (pollCount <
maxPollTimes)` loop; each iteration increments `pollCount`, calls
`checkMergeStatus` (whose failures are already wrapped with
`检查合并状态失败: `), returns on `completed`, throws a timeout error once
`pollCount >= maxPollTimes`, otherwise emits a `merging` progress event and
sleeps `pollInterval`. Everything thrown inside the loop body — including
the timeout error itself — is re-wrapped by the body's own catch with
`检查合并状态失败: `. -/

/-- Bookkeeping of one `pollUploadStatus` run: number of `checkMergeStatus`
attempts, number of `setTimeout` sleeps, and total slept milliseconds. -/
structure PollStats where
  attempts : Nat
  sleeps : Nat
  sleepTotal : Nat
deriving DecidableEq, Repr

namespace Uploader

/-- The loop body of `pollUploadStatus`, from loop counter `pollCount`.
`merge c` is the (already wrapped) result of `checkMergeStatus` on the
`c`-th attempt: `Except.ok b` with the `completed` flag, or a failure. -/
def pollLoop (merge : Nat → Except String Bool) (maxPollTimes interval pollCount : Nat) :
    Except String Unit × PollStats :=
  if pollCount < maxPollTimes then
    match merge (pollCount + 1) with
    | .error msg => (.error ("检查合并状态失败: " ++ msg), ⟨1, 0, 0⟩)
    | .ok true => (.ok (), ⟨1, 0, 0⟩)
    | .ok false =>
      if maxPollTimes ≤ pollCount + 1 then
        (.error ("检查合并状态失败: 轮询检查上传状态超时"), ⟨1, 0, 0⟩)
      else
        let r := pollLoop merge maxPollTimes interval (pollCount + 1)
        (r.1, ⟨r.2.attempts + 1, r.2.sleeps + 1, r.2.sleepTotal + interval⟩)
  else (.ok (), ⟨0, 0, 0⟩)
termination_by maxPollTimes - pollCount

/-- Model of `Uploader.pollUploadStatus` (uploader.ts lines 581-623). -/
def pollUploadStatus (merge : Nat → Except String Bool) (maxPollTimes interval : Nat) :
    Except String Unit × PollStats :=
  pollLoop merge maxPollTimes interval 0

end Uploader

/-! ## Chunk reader

`readChunk` (uploader.ts lines 508-547) opens
`fs.createReadStream(filePath, { start, end: start + chunkSize - 1, ... })`,
collects every `data` chunk and resolves with their concatenation; a stream
error rejects with `读取文件失败: <message>`. Node's `createReadStream`
with an `end` past the end of the file simply stops at end-of-file (and a
`start` at or past end-of-file yields an empty stream): it reads the bytes
of `[start, min(start + chunkSize, fileSize))` and does not error. A
missing file or denied access surfaces as a stream `error` event. The file
is modelled as either missing, access-denied, or present with a byte
list. -/

/-- The observable state of the source file for one read. -/
inductive FileState
  | missing
  | denied
  | present (data : List Nat)
deriving DecidableEq, Repr

namespace Uploader

/-- Model of `Uploader.readChunk` (uploader.ts lines 508-547): the bytes actually
delivered by the read stream, concatenated, or the wrapped stream error. -/
def readChunk (file : FileState) (start chunkSize : Nat) : Except String (List Nat) :=
  match file with
  | .missing => .error ("读取文件失败: ENOENT: no such file or directory")
  | .denied => .error ("读取文件失败: EACCES: permission denied")
  | .present data => .ok ((data.drop start).take chunkSize)

end Uploader

/-! ## Per-chunk upload with retry

`uploadChunk` (uploader.ts lines 436-498) runs, per attempt: read the
chunk (`readChunk`), request a fresh destination URL
(`getChunkUploadUrl`), then `axios.put` the bytes with the task's abort
signal. Its catch distinguishes `axios.isCancel` (only the `put` carries
the abort signal): cancellation marks the task `abort` and returns
`undefined`; any other failure retries the whole operation after
`retryDelay` while `retryCount < retryTimes`, and once retries are
exhausted marks the task `error` and rethrows the last error.
Each attempt is summarised by where it stopped. -/

/-- Where one `uploadChunk` attempt stopped: a failure while reading the
file, while requesting the destination URL, or while transferring the
bytes; an abort of the transfer via the task's controller; or success. -/
inductive AttemptStep
  | readFail (msg : String)
  | urlFail (msg : String)
  | putFail (msg : String)
  | putCancel
  | ok
deriving DecidableEq, Repr

/-- Final fate of one chunk task: resolved with its part number
(`completed`), returned `undefined` after an abort (`aborted`), or
rethrown after exhausted retries (`errored`). -/
inductive ChunkOutcome
  | completed
  | aborted
  | errored (msg : String)
deriving DecidableEq, Repr

/-- Counters of one `uploadChunk` run: attempts made, destination-URL
requests issued (one per attempt that reached `getChunkUploadUrl`), and
total milliseconds spent in retry sleeps. -/
structure ChunkRunStats where
  attempts : Nat
  urlRequests : Nat
  sleepTotal : Nat
deriving DecidableEq, Repr

/-- How many destination-URL requests an attempt issues: none when the
read failed first, one otherwise. -/
def urlReq : AttemptStep → Nat
  | .readFail _ => 0
  | _ => 1

/-- The error message a failing attempt throws (already wrapped by
`readChunk` / `getChunkUploadUrl` where applicable). -/
def failMsg : AttemptStep → String
  | .readFail m => m
  | .urlFail m => m
  | .putFail m => m
  | _ => ""

/-- An attempt outcome that enters the retry branch: any failure other
than explicit cancellation. -/
def isRetryableFailure : AttemptStep → Bool
  | .readFail _ => true
  | .urlFail _ => true
  | .putFail _ => true
  | .putCancel => false
  | .ok => false

namespace Uploader

/-- Recursion core of `uploadChunk`: `remaining` is the number of retries
still allowed, `retryTimes - retryCount` (the guard `retryCount <
retryTimes` of uploader.ts line 488 holds exactly when `remaining > 0`).
Structured over `remaining` so the kernel can evaluate closed runs. -/
def uploadChunkAux (att : Nat → AttemptStep) (retryDelay : Nat) :
    Nat → Nat → ChunkOutcome × ChunkRunStats
  | retryCount, remaining =>
    match att retryCount with
    | .ok => (.completed, ⟨1, 1, 0⟩)
    | .putCancel => (.aborted, ⟨1, 1, 0⟩)
    | .readFail msg =>
      match remaining with
      | 0 => (.errored msg, ⟨1, 0, 0⟩)
      | rem + 1 =>
        let r := uploadChunkAux att retryDelay (retryCount + 1) rem
        (r.1, ⟨r.2.attempts + 1, r.2.urlRequests + 0, r.2.sleepTotal + retryDelay⟩)
    | .urlFail msg =>
      match remaining with
      | 0 => (.errored msg, ⟨1, 1, 0⟩)
      | rem + 1 =>
        let r := uploadChunkAux att retryDelay (retryCount + 1) rem
        (r.1, ⟨r.2.attempts + 1, r.2.urlRequests + 1, r.2.sleepTotal + retryDelay⟩)
    | .putFail msg =>
      match remaining with
      | 0 => (.errored msg, ⟨1, 1, 0⟩)
      | rem + 1 =>
        let r := uploadChunkAux att retryDelay (retryCount + 1) rem
        (r.1, ⟨r.2.attempts + 1, r.2.urlRequests + 1, r.2.sleepTotal + retryDelay⟩)

/-- Model of `Uploader.uploadChunk` (uploader.ts lines 436-498) as a function of the
per-attempt outcomes `att` (attempt indices are the `retryCount` values
0, 1, ...). Returns the chunk's fate plus run counters. -/
def uploadChunk (att : Nat → AttemptStep) (retryTimes retryDelay retryCount : Nat) :
    ChunkOutcome × ChunkRunStats :=
  uploadChunkAux att retryDelay retryCount (retryTimes - retryCount)

end Uploader

/-- Total destination-URL requests of a run of `k + 1` attempts starting
at attempt `retryCount`. -/
def urlSum (att : Nat → AttemptStep) (retryCount attempts : Nat) : Nat :=
  ((List.range attempts).map (fun r => urlReq (att (retryCount + r)))).sum

/-! ## The chunk pass (`uploadChunks`) and the p-queue

`uploadChunks` (uploader.ts lines 351-429) creates one task per chunk,
adds them all to the session's `PQueue`, and settles its promise from the
queue's events: `error` → `taskClear()` and reject; `completed` with a
defined result → record the part number; `idle` → resolve `true` when
every part completed, `false` when none did (but tasks exist) or when some
are missing.

p-queue semantics used (from p-queue's `_tryToStartAnother`, called when a
task finishes and from `start()`): `idle` is emitted exactly when the
waiting queue is empty and the finishing task leaves no work pending —
note this check precedes the `_isPaused` check, so `idle` fires even while
the queue is paused; and a queue to which no task was ever added never
emits `idle`.  The promise settles at most once.

The machine below runs the pass with a deterministic scheduler: one task
is in flight at a time; a scheduler step either starts the head of the
waiting queue or finishes the in-flight task with its `uploadChunk`
outcome.  `pause` / `resume` / `cancel` may be interleaved between
steps. -/

/-- A `UploadChunkTask`'s mutable fields: its status and the generation of
its `AbortController` (`resume` replaces the controller, bumping the
generation — a fresh cancellation handle). -/
structure PTask where
  status : TaskSt
  gen : Nat
deriving DecidableEq, Repr

/-- How the `uploadChunks` promise settles. -/
inductive PassResult
  | resolvedTrue
  | resolvedFalse
  | rejected (msg : String)
deriving DecidableEq, Repr

/-- State of one chunk pass: the task table (`this.chunkTasks`, indexed by
0-based chunk index; part number = index + 1), the p-queue's waiting list
and in-flight task, the `parts` accumulator of completed part numbers, the
queue's paused flag, how the promise has settled (if it has), and the
per-part `progress` map. -/
structure PassState where
  total : Nat
  tasks : Nat → PTask
  queued : List Nat
  running : Option Nat
  parts : List Nat
  paused : Bool
  settled : Option PassResult
  progress : Nat → Nat

/-- The `idle` handler of `uploadChunks` (uploader.ts lines 413-427):
resolve `false` when nothing completed but tasks exist, `true` when all
parts completed, `false` otherwise. -/
def resolveIdle (partsLen total : Nat) : PassResult :=
  if partsLen = 0 ∧ 0 < total then .resolvedFalse
  else if partsLen = total then .resolvedTrue
  else .resolvedFalse

/-- Emission point of p-queue's `idle` event: the queue is empty and
nothing is in flight.  Settles the (not yet settled) promise via the idle
handler. -/
def idleCheck (s : PassState) : PassState :=
  if s.queued = [] ∧ s.running = none then
    match s.settled with
    | some _ => s
    | none => { s with settled := some (resolveIdle s.parts.length s.total) }
  else s

/-- Fresh pass state: all tasks pending with their initial controllers,
all queued in order (uploader.ts lines 359-391). -/
def initPass (total : Nat) : PassState :=
  { total := total
    tasks := fun _ => ⟨.pending, 0⟩
    queued := List.range total
    running := none
    parts := []
    paused := false
    settled := none
    progress := fun _ => 0 }

/-- p-queue starts the next waiting task (sets the task `running`,
uploader.ts line 443). -/
def startNext (s : PassState) : PassState :=
  match s.queued with
  | [] => s
  | i :: rest =>
      { s with
        queued := rest
        running := some i
        tasks := (fun j => if j = i then ⟨.running, (s.tasks j).gen⟩ else s.tasks j) }

/-- The in-flight task `i` finishes with outcome `out i`:
`completed` → the queue's `completed` listener records the part and the
task's progress entry holds the full chunk length (uploader.ts lines
402-411, 461); `errored` → the task is marked `error`, the queue's `error`
handler runs `taskClear()` and rejects (lines 397-400, 496-497);
`aborted` → the task is marked `abort` and resolves `undefined`
(lines 483-486).  In every case the finishing task triggers the
`idle` check, except after a rejection, which settles the promise
itself. -/
def finishCompleted (len : Nat → Nat) (i : Nat) (s : PassState) : PassState :=
  idleCheck { s with
    tasks := fun j => if j = i then ⟨.completed, (s.tasks j).gen⟩ else s.tasks j
    progress := fun j => if j = i then len i else s.progress j
    parts := s.parts ++ [i + 1]
    running := none }

def finishAborted (i : Nat) (s : PassState) : PassState :=
  idleCheck { s with
    tasks := fun j => if j = i then ⟨.abort, (s.tasks j).gen⟩ else s.tasks j
    running := none }

def finishErrored (msg : String) (i : Nat) (s : PassState) : PassState :=
  { s with
    tasks := fun j => if j = i then ⟨.error, (s.tasks j).gen⟩ else s.tasks j
    running := none
    queued := []
    settled := match s.settled with
      | some r => some r
      | none => some (.rejected msg) }

def finishCurrent (out : Nat → ChunkOutcome) (len : Nat → Nat) (i : Nat)
    (s : PassState) : PassState :=
  match out i with
  | .completed => finishCompleted len i s
  | .aborted => finishAborted i s
  | .errored msg => finishErrored msg i s

/-- One deterministic scheduler step: a paused queue starts nothing (and
the abort of an in-flight task is folded into `pause` itself, so a paused
pass is quiescent); otherwise the in-flight task finishes, or the next
waiting task starts. -/
def step (out : Nat → ChunkOutcome) (len : Nat → Nat) (s : PassState) : PassState :=
  if s.paused then s
  else
    match s.running with
    | some i => finishCurrent out len i s
    | none => startNext s

/-- Iterated scheduler steps. -/
def runSteps (out : Nat → ChunkOutcome) (len : Nat → Nat) : Nat → PassState → PassState
  | 0, s => s
  | n + 1, s => runSteps out len n (step out len s)

/-- A session: the externally visible `status` plus the chunk-pass
state. -/
structure Session where
  status : Status
  pass : PassState

namespace Uploader

/-- Model of `Uploader.pause` (uploader.ts lines 652-665): a no-op unless `running`;
otherwise set status `paused`, pause the queue, and for the in-flight task
reset its progress entry to 0 and abort its controller — the aborted
transfer then resolves `undefined`, marking the task `abort` and firing
the queue's idle check (which, per p-queue, runs even while paused). -/
def pause (s : Session) : Session × List Event :=
  if s.status = .running then
    let p1 := { s.pass with paused := true }
    let p2 :=
      match p1.running with
      | none => p1
      | some i =>
          idleCheck { p1 with
            tasks := fun j => if j = i then ⟨.abort, (p1.tasks j).gen⟩ else p1.tasks j
            progress := fun j => if j = i then 0 else p1.progress j
            running := none }
    ({ status := .paused, pass := p2 }, [])
  else (s, [])

/-- Model of `Uploader.resume` (uploader.ts lines 670-691): a no-op unless `paused`;
otherwise set status `running`, re-add every `abort` task with a fresh
controller (generation + 1) and `pending` status, and `queue.start()`,
which unpauses and runs the idle check. -/
def resume (s : Session) : Session × List Event :=
  if s.status = .paused then
    let abortedTasks := (List.range s.pass.total).filter
      (fun i => (s.pass.tasks i).status = .abort)
    let p1 := { s.pass with
      tasks := (fun j =>
        if (s.pass.tasks j).status = TaskSt.abort then ⟨.pending, (s.pass.tasks j).gen + 1⟩
        else s.pass.tasks j)
      queued := s.pass.queued ++ abortedTasks }
    let p2 := idleCheck { p1 with paused := false }
    ({ status := .running, pass := p2 }, [])
  else (s, [])

/-- Model of `Uploader.cancel` (uploader.ts lines 696-700): unconditionally set
status `cancel`, run `taskClear()` (clear the waiting queue and abort
every controller — the in-flight task, if any, then resolves `undefined`,
marking itself `abort` and firing the idle check), and emit a `cancel`
event. -/
def cancel (s : Session) : Session × List Event :=
  let p1 := { s.pass with queued := [] }
  let p2 :=
    match p1.running with
    | none => p1
    | some i =>
        idleCheck { p1 with
          tasks := fun j => if j = i then ⟨.abort, (p1.tasks j).gen⟩ else p1.tasks j
          running := none }
  ({ status := .cancel, pass := p2 }, [.cancelEv])

/-- The first two statements of `Uploader.upload` (uploader.ts lines
180-181): unconditionally set status `running` and emit `start`. -/
def uploadEntry (s : Session) : Session × List Event :=
  ({ s with status := .running }, [.start])

end Uploader

/-! ## The end-to-end `upload` pipeline

`upload` (uploader.ts lines 176-268): set status `running`, emit `start`;
`createUploadTask` (emits a `preupload` progress event, computes the md5,
posts `/upload/v1/file/create`; any failure — including a non-zero
response code or an md5/read failure — is reported as a `debug` event and
rethrown wrapped in `创建上传任务失败: `); on `reuse`, resolve immediately
with `{fileId: fileID || preuploadID, filename: target || this.filename}`
after a `complete` progress event and the `completed` event; otherwise run
the chunk pass, then `finishUpload` (failures wrapped in
`完成上传失败: `), then — for asynchronous, incomplete merges — a `merging`
progress event and `pollUploadStatus`, and finally resolve as in the reuse
case.  The surrounding catch (lines 261-267): when the current status is
`cancel` the exception is swallowed and `upload()` resolves `undefined`;
otherwise an `error` event is emitted, the status becomes `error`, and the
exception is rethrown. -/

/-- The create-task response (uploader.ts lines 274-279): `fileID` is
`none`/`some ""` when the field is absent/empty (both falsy in
`fileID || preuploadID`). -/
structure CreateResp where
  fileID : Option String
  reuse : Bool
  preuploadID : String
  sliceSize : Nat
deriving DecidableEq, Repr

/-- The finish-upload response (uploader.ts lines 554-558). -/
structure FinishResp where
  asyncUpload : Bool
  fileID : String
  completed : Bool
deriving DecidableEq, Repr

/-- JavaScript's `fileID || preuploadID` (uploader.ts lines 190, 244):
fall back to the preupload identifier when `fileID` is absent or empty. -/
def fallbackId (fileID : Option String) (preuploadID : String) : String :=
  match fileID with
  | none => preuploadID
  | some s => if s = "" then preuploadID else s

/-- The `completedInfo` value (uploader.ts lines 189-192, 243-246). -/
def completedInfo (resp : CreateResp) (target : Option String)
    (filename : String) : String × String :=
  (fallbackId resp.fileID resp.preuploadID, target.getD filename)

/-- One upload session's environment: the file, the constructor-computed
`filename` (`path.basename(filePath)`, uploader.ts line 124), the retry
options, and the remote service's behaviour — the create-task result, the
per-chunk per-attempt outcomes, the finish result and the per-attempt
merge checks. -/
structure UploadEnv where
  size : Nat
  filename : String
  create : Except String CreateResp
  att : Nat → Nat → AttemptStep
  retryTimes : Nat
  retryDelay : Nat
  finish : Except String FinishResp
  merge : Nat → Except String Bool
  pollInterval : Nat
  pollMaxTimes : Nat

/-- The outcome of one chunk task in this session's pass. -/
def chunkRun (env : UploadEnv) (i : Nat) : ChunkOutcome × ChunkRunStats :=
  Uploader.uploadChunk (env.att i) env.retryTimes env.retryDelay 0

/-- Outcome component of `chunkRun`. -/
def chunkOut (env : UploadEnv) (i : Nat) : ChunkOutcome :=
  (chunkRun env i).1

/-- Remote calls of one `uploadChunk` attempt for part `p`: the read stops
some attempts before the URL request; an attempt that reaches the
transfer issues both the URL request and the `put`. -/
def attemptOps (p : Nat) : AttemptStep → List RemoteOp
  | .readFail _ => []
  | .urlFail _ => [.getUploadUrlOp p]
  | .putFail _ => [.getUploadUrlOp p, .putOp p]
  | .putCancel => [.getUploadUrlOp p, .putOp p]
  | .ok => [.getUploadUrlOp p, .putOp p]

/-- Remote calls of the whole chunk pass, grouped per task (the
deterministic schedule runs tasks in order). -/
def chunkTraceOps (env : UploadEnv) (total : Nat) : List RemoteOp :=
  ((List.range total).map (fun i =>
    ((List.range (chunkRun env i).2.attempts).map
      (fun r => attemptOps (i + 1) (env.att i r))).join)).join

/-- The `uploading` progress events of the pass: one per acknowledged complete
transfer (the final `onUploadProgress` callback of a successful `put`,
uploader.ts lines 460-477; the partial-progress callbacks of failed
attempts are not modelled). -/
def chunkTraceEvents (env : UploadEnv) (total : Nat) : List Event :=
  ((List.range total).map (fun i =>
    if chunkOut env i = .completed then [Event.progressUploading (i + 1)]
    else [])).join

/-- Result of the `try` block of `upload`: resolved with `completedInfo`,
resolved `undefined` (the `return;` when a failed pass finds the status no
longer `running`, line 220), an exception, or — when the pass promise
never settles — no result at all. -/
inductive BodyOut
  | ok (info : Option (String × String))
  | raised (msg : String)
  | hangs
deriving DecidableEq, Repr

/-- Steps 4-6 of `upload` (uploader.ts lines 216-260), from the settled
state of the chunk pass: the `!status` check, `finishUpload`, the optional
poll, and the final `completedInfo` resolution, together with the tail's
events and remote calls. -/
def afterPass (env : UploadEnv) (resp : CreateResp) (target : Option String)
    (statusNow : Status) (settled : Option PassResult) :
    BodyOut × List Event × List RemoteOp :=
  match settled with
  | none => (.hangs, [], [])
  | some (.rejected msg) => (.raised msg, [], [])
  | some .resolvedFalse =>
      (if statusNow = .running then .raised ("上传失败") else .ok none, [], [])
  | some .resolvedTrue =>
      match env.finish with
      | .error msg => (.raised ("完成上传失败: " ++ msg), [], [.finishOp])
      | .ok fr =>
          let info := completedInfo resp target env.filename
          if fr.asyncUpload ∧ ¬fr.completed then
            let pr := Uploader.pollUploadStatus env.merge env.pollMaxTimes env.pollInterval
            let mergeEvs := Event.progressMerging ::
              List.replicate pr.2.sleeps Event.progressMerging
            let mergeOps := List.replicate pr.2.attempts RemoteOp.mergeOp
            match pr.1 with
            | .error msg => (.raised msg, mergeEvs, RemoteOp.finishOp :: mergeOps)
            | .ok _ =>
                (.ok (some info),
                 mergeEvs ++ [.progressComplete, .completedEv info.1 info.2],
                 RemoteOp.finishOp :: mergeOps)
          else
            (.ok (some info),
             [.progressComplete, .completedEv info.1 info.2],
             [.finishOp])

/-- The `try` block of `upload` (uploader.ts lines 179-260): create the
task, short-circuit on `reuse`, otherwise plan `ceil(size/sliceSize)`
chunks, run the pass to quiescence and continue with `afterPass`.
`statusNow` is the value of `this.status` read by the body (and by the
catch): `running` unless `pause()`/`cancel()` intervened. -/
def uploadBody (env : UploadEnv) (target : Option String) (statusNow : Status) :
    BodyOut × List Event × List RemoteOp :=
  match env.create with
  | .error msg =>
      (.raised ("创建上传任务失败: " ++ msg),
       [.start, .progressPreupload, .debug], [.createOp])
  | .ok resp =>
      if resp.reuse then
        let info := completedInfo resp target env.filename
        (.ok (some info),
         [.start, .progressPreupload, .progressComplete,
          .completedEv info.1 info.2],
         [.createOp])
      else
        let total := chunksCount env.size resp.sliceSize
        let pass := runSteps (chunkOut env) (chunkLen env.size resp.sliceSize)
          (2 * total + 1) (initPass total)
        let tail := afterPass env resp target statusNow pass.settled
        (tail.1,
         [Event.start, Event.progressPreupload] ++ chunkTraceEvents env total
           ++ tail.2.1,
         RemoteOp.createOp :: (chunkTraceOps env total ++ tail.2.2))

/-- How `upload()`'s promise settles. -/
inductive UploadResult
  | resolved (info : Option (String × String))
  | threw (msg : String)
  | hang
deriving DecidableEq, Repr

namespace Uploader

/-- Model of `Uploader.upload` (uploader.ts lines 176-268): the try block plus the
catch handler (lines 261-267) and the terminal status writes (lines 204,
258, 265).  Returns the promise outcome, the final status, the emitted
events and the remote calls. -/
def upload (env : UploadEnv) (target : Option String) (statusNow : Status) :
    UploadResult × Status × List Event × List RemoteOp :=
  match uploadBody env target statusNow with
  | (.hangs, evs, ops) => (.hang, statusNow, evs, ops)
  | (.ok (some info), evs, ops) => (.resolved (some info), .completed, evs, ops)
  | (.ok none, evs, ops) => (.resolved none, statusNow, evs, ops)
  | (.raised msg, evs, ops) =>
      if statusNow = .cancel then (.resolved none, statusNow, evs, ops)
      else (.threw msg, .error, evs ++ [.errorEv msg], ops)

end Uploader

/-- Replace the `fileID` of the finish-upload response, leaving everything
else of the environment unchanged. -/
def setFinishFileID (env : UploadEnv) (x : String) : UploadEnv :=
  { env with finish :=
      match env.finish with
      | .ok fr => .ok { fr with fileID := x }
      | .error msg => .error msg }

/-- Environment of the C6 witness scenario (§8): the create call answers
`reuse = true` with file id `"F1"`. -/
def envReuse : UploadEnv :=
  { size := 100
    filename := "file.bin"
    create := .ok { fileID := some ("F1"), reuse := true,
                    preuploadID := "pre", sliceSize := 16 }
    att := fun _ _ => .ok
    retryTimes := 3
    retryDelay := 0
    finish := .error ("unused")
    merge := fun _ => .ok true
    pollInterval := 0
    pollMaxTimes := 30 }

/-- Environment of the C9 failing input: a 0-byte source file uploaded
non-reuse with the default 16 MiB authoritative slice size. -/
def envZero : UploadEnv :=
  { size := 0
    filename := "empty.bin"
    create := .ok { fileID := some ("F1"), reuse := false,
                    preuploadID := "pre", sliceSize := 16 * 1024 * 1024 }
    att := fun _ _ => .ok
    retryTimes := 3
    retryDelay := 0
    finish := .ok { asyncUpload := false, fileID := "X", completed := true }
    merge := fun _ => .ok true
    pollInterval := 0
    pollMaxTimes := 30 }

/-- Environment of the C5 witness: the create call fails outright. -/
def envCreateFails : UploadEnv :=
  { size := 100
    filename := "file.bin"
    create := .error ("network down")
    att := fun _ _ => .ok
    retryTimes := 3
    retryDelay := 0
    finish := .error ("unused")
    merge := fun _ => .ok true
    pollInterval := 0
    pollMaxTimes := 30 }

/-- Environment of the C10 witness: a full 2-chunk upload whose finish
response carries a different file id (`"OTHER"`). -/
def envFull : UploadEnv :=
  { size := 8
    filename := "file.bin"
    create := .ok { fileID := some ("F1"), reuse := false,
                    preuploadID := "pre", sliceSize := 4 }
    att := fun _ _ => .ok
    retryTimes := 3
    retryDelay := 0
    finish := .ok { asyncUpload := false, fileID := "OTHER", completed := true }
    merge := fun _ => .ok true
    pollInterval := 0
    pollMaxTimes := 30 }

/-! ## Scheduler invariants

Auxiliary invariants of the chunk-pass machine, used to settle the
pause/resume claim and the all-chunks-complete claim. `Inv` describes a
quiescent pass (nothing in flight, nothing aborted): every task is either
`pending` and waiting in the queue, or `completed` and counted in `parts`.
`Inv2` additionally allows the single in-flight task of the deterministic
schedule. -/

/-- Quiescent pass invariant. -/
structure Inv (n : Nat) (s : PassState) : Prop where
  total_eq : s.total = n
  not_paused : s.paused = false
  no_running : s.running = none
  nodup : s.queued.Nodup
  queued_lt : ∀ i ∈ s.queued, i < n
  queued_pending : ∀ i ∈ s.queued, (s.tasks i).status = .pending
  pending_queued : ∀ i, i < n → (s.tasks i).status = .pending → i ∈ s.queued
  status_pc : ∀ i, i < n →
    (s.tasks i).status = .pending ∨ (s.tasks i).status = .completed
  parts_count : s.parts.length + s.queued.length = n
  settled_done : s.queued = [] → s.settled = some .resolvedTrue
  settled_none : s.queued ≠ [] → s.settled = none

/-- In-flight pass invariant: at most one task is running, and it is the
one recorded in `running`. -/
structure Inv2 (n : Nat) (s : PassState) : Prop where
  total_eq : s.total = n
  not_paused : s.paused = false
  nodup : s.queued.Nodup
  queued_lt : ∀ i ∈ s.queued, i < n
  queued_pending : ∀ i ∈ s.queued, (s.tasks i).status = .pending
  running_not_queued : ∀ i, s.running = some i → i ∉ s.queued
  running_lt : ∀ i, s.running = some i → i < n
  running_status : ∀ i, s.running = some i → (s.tasks i).status = .running
  status_cases : ∀ i, i < n →
    (s.tasks i).status = .pending ∨ (s.tasks i).status = .completed ∨
    (s.running = some i ∧ (s.tasks i).status = .running)
  pending_queued : ∀ i, i < n → (s.tasks i).status = .pending → i ∈ s.queued
  parts_count : s.parts.length + s.queued.length +
    (match s.running with | some _ => 1 | none => 0) = n
  settled_inv : (s.queued = [] ∧ s.running = none ∧
      s.settled = some .resolvedTrue) ∨
    (s.settled = none ∧ (s.queued ≠ [] ∨ s.running ≠ none))

/-- The `abort`-status tasks `resume` re-submits (uploader.ts lines
676-678). -/
def abortList (n : Nat) (q : PassState) : List Nat :=
  (List.range n).filter (fun i => (q.tasks i).status = TaskSt.abort)

/-- State of the pass right after a `pause` in a well-formed run: queue
paused, nothing in flight, every task pending-and-queued, completed, or
aborted (and the aborted ones off the queue). -/
structure PInv (n : Nat) (q : PassState) : Prop where
  total_eq : q.total = n
  paused_is : q.paused = true
  no_running : q.running = none
  nodup : q.queued.Nodup
  queued_lt : ∀ i ∈ q.queued, i < n
  queued_pending : ∀ i ∈ q.queued, (q.tasks i).status = .pending
  pending_queued : ∀ i, i < n → (q.tasks i).status = .pending → i ∈ q.queued
  status_pca : ∀ i, i < n → (q.tasks i).status = .pending ∨
    (q.tasks i).status = .completed ∨ (q.tasks i).status = .abort
  abort_not_queued : ∀ i, i < n → (q.tasks i).status = .abort → i ∉ q.queued
  count_eq : q.parts.length + q.queued.length + (abortList n q).length = n
  settled_cases : (q.queued = [] ∧ abortList n q = [] ∧
      q.settled = some .resolvedTrue) ∨
    (q.settled = none ∧ (q.queued ≠ [] ∨ abortList n q ≠ []))

/-- The pass state `resume` hands back to the (unpaused) queue, for a
session whose pass has `total = n`. -/
def resumedPass (n : Nat) (q : PassState) : PassState :=
  { total := n
    tasks := (fun j =>
      if (q.tasks j).status = TaskSt.abort then ⟨.pending, (q.tasks j).gen + 1⟩
      else q.tasks j)
    queued := q.queued ++ abortList n q
    running := q.running
    parts := q.parts
    paused := false
    settled := q.settled
    progress := q.progress }

/-- The session after `pause()` is called on a run that has made `j`
scheduler steps into an `n`-chunk pass. -/
def pausedSession (n j : Nat) (out : Nat → ChunkOutcome) (len : Nat → Nat) :
    Session :=
  (Uploader.pause (Session.mk .running (runSteps out len j (initPass n)))).1

/-- The session after the subsequent `resume()`. -/
def resumedSession (n j : Nat) (out : Nat → ChunkOutcome) (len : Nat → Nat) :
    Session :=
  (Uploader.resume (pausedSession n j out len)).1

/-- Attempt oracle of the C7 witness scenario (§8): fail twice during the
byte transfer, then succeed. -/
def att2 : Nat → AttemptStep :=
  fun r => if r < 2 then .putFail ("ECONNRESET") else .ok

theorem chunksCount_zero (chunkSize : Nat) : chunksCount 0 chunkSize = 0 := by
  unfold chunksCount
  cases chunkSize with
  | zero => rfl
  | succ n => exact Nat.div_eq_of_lt (by omega)

theorem lt_chunksCount_iff {size chunkSize i : Nat} (h : 0 < chunkSize) :
    i < chunksCount size chunkSize ↔ i * chunkSize < size := by
  unfold chunksCount
  rw [show (i < (size + chunkSize - 1) / chunkSize ↔
        i + 1 ≤ (size + chunkSize - 1) / chunkSize) from Iff.rfl,
     Nat.le_div_iff_mul_le h]
  have : (i + 1) * chunkSize = i * chunkSize + chunkSize := by ring
  omega

theorem planChunks_length (size chunkSize : Nat) :
    (planChunks size chunkSize).length = chunksCount size chunkSize := by
  simp [planChunks]

theorem planChunks_get (size chunkSize i : Nat)
    (h : i < (planChunks size chunkSize).length) :
    (planChunks size chunkSize).get ⟨i, h⟩ =
      { partNumber := i + 1, start := i * chunkSize
        chunkSize := chunkLen size chunkSize i } := by
  simp [planChunks]

theorem chunkLen_add (size chunkSize i : Nat) (hi : i * chunkSize < size) :
    i * chunkSize + chunkLen size chunkSize i = min ((i + 1) * chunkSize) size := by
  unfold chunkLen
  have : (i + 1) * chunkSize = i * chunkSize + chunkSize := by ring
  omega

theorem chunkLen_pos {size chunkSize i : Nat} (h : 0 < chunkSize)
    (hi : i * chunkSize < size) : 0 < chunkLen size chunkSize i := by
  unfold chunkLen
  omega

theorem chunkLen_le (size chunkSize i : Nat) :
    chunkLen size chunkSize i ≤ chunkSize := by
  unfold chunkLen
  omega

theorem div_eq_of_between {k j d : Nat} (h : 0 < d)
    (h1 : j * d ≤ k) (h2 : k < j * d + d) : k / d = j := by
  have hd := Nat.div_add_mod k d
  have hm := Nat.mod_lt k h
  have hle : j ≤ k / d := (Nat.le_div_iff_mul_le h).2 h1
  have hgt : k / d ≤ j := by
    by_contra hc
    push_neg at hc
    have : (j + 1) * d ≤ (k / d) * d := Nat.mul_le_mul_right d hc
    have h3 : (k / d) * d ≤ k := Nat.div_mul_le_self k d
    have h4 : (j + 1) * d = j * d + d := by ring
    omega
  omega

theorem last_chunkLen {size chunkSize : Nat} (h : 0 < chunkSize)
    (hn : 0 < chunksCount size chunkSize) :
    chunkLen size chunkSize (chunksCount size chunkSize - 1) =
      if size % chunkSize = 0 then chunkSize else size % chunkSize := by
  have h1 : (chunksCount size chunkSize - 1) * chunkSize < size := by
    rw [← lt_chunksCount_iff h]
    omega
  have h2 : size ≤ chunksCount size chunkSize * chunkSize := by
    by_contra hc
    push_neg at hc
    have := (lt_chunksCount_iff h).2 hc
    omega
  have h3 : (chunksCount size chunkSize - 1) * chunkSize + chunkSize
      = chunksCount size chunkSize * chunkSize := by
    have hs : chunksCount size chunkSize - 1 + 1 = chunksCount size chunkSize := by
      omega
    calc (chunksCount size chunkSize - 1) * chunkSize + chunkSize
        = (chunksCount size chunkSize - 1 + 1) * chunkSize := by ring
      _ = chunksCount size chunkSize * chunkSize := by rw [hs]
  have hd := Nat.div_add_mod size chunkSize
  have hm := Nat.mod_lt size h
  have hq1 : chunksCount size chunkSize - 1 ≤ size / chunkSize :=
    (Nat.le_div_iff_mul_le h).2 (Nat.le_of_lt h1)
  have hq2 : size / chunkSize ≤ chunksCount size chunkSize := by
    have := Nat.div_le_div_right (c := chunkSize) h2
    rwa [Nat.mul_div_cancel _ h] at this
  have hcase : size / chunkSize = chunksCount size chunkSize - 1 ∨
      size / chunkSize = chunksCount size chunkSize := by omega
  unfold chunkLen
  rcases hcase with hq | hq <;> rw [hq, mul_comm chunkSize] at hd <;> split <;> omega

/-- Claim C1: for every total size ≥ 0 and slice size > 0, the chunk plan is an
ordered sequence of `ceil(size/sliceSize)` descriptors with 1-based sequence
numbers whose (offset, length) ranges tile `[0, size)` exactly once with no
gaps or overlaps, and the final chunk's length is `size mod sliceSize` unless
that remainder is zero, in which case it equals `sliceSize`
(uploader.ts line 212 and lines 359-381). -/
theorem chunk_plan_tiles (size chunkSize : Nat) (h : 0 < chunkSize) :
    ChunkPlanSpec size chunkSize := by
  have hlen := planChunks_length size chunkSize
  have hget := planChunks_get size chunkSize
  have hmem : ∀ i, i < (planChunks size chunkSize).length → i * chunkSize < size := by
    intro i hi
    rw [hlen] at hi
    exact (lt_chunksCount_iff h).1 hi
  refine ⟨hlen, ?_, ?_, ?_, ?_, ?_, ?_⟩
  · intro i hi
    rw [hget i hi]
  · intro i hi
    rw [hget i hi]
  · intro i hi
    rw [hget i hi]
    exact chunkLen_add size chunkSize i (hmem i hi)
  · intro i hi
    rw [hget i hi]
    exact chunkLen_pos h (hmem i hi)
  · intro k hk
    have hdlt : k / chunkSize < (planChunks size chunkSize).length := by
      rw [hlen, lt_chunksCount_iff h]
      calc k / chunkSize * chunkSize ≤ k := Nat.div_mul_le_self k chunkSize
        _ < size := hk
    have hdm := Nat.div_add_mod k chunkSize
    have hmod := Nat.mod_lt k h
    refine ⟨k / chunkSize, ⟨hdlt, ?_, ?_⟩, ?_⟩
    · rw [hget _ hdlt]
      exact Nat.div_mul_le_self k chunkSize
    · rw [hget _ hdlt]
      show k < k / chunkSize * chunkSize + chunkLen size chunkSize (k / chunkSize)
      have := chunkLen_add size chunkSize (k / chunkSize) (hmem _ hdlt)
      have hx : (k / chunkSize + 1) * chunkSize = k / chunkSize * chunkSize + chunkSize := by
        ring
      rw [mul_comm chunkSize] at hdm
      omega
    · rintro j ⟨hj, hj1, hj2⟩
      rw [hget j hj] at hj1 hj2
      dsimp only at hj1 hj2
      have hle := chunkLen_le size chunkSize j
      exact (div_eq_of_between h hj1 (by omega)).symm
  · intro hne
    have hpos : 0 < (planChunks size chunkSize).length := List.length_pos.2 hne
    have hidx : (planChunks size chunkSize).length - 1 < (planChunks size chunkSize).length := by
      omega
    rw [List.getLast_eq_get, hget _ hidx]
    show chunkLen size chunkSize ((planChunks size chunkSize).length - 1) = _
    rw [hlen]
    exact last_chunkLen h (by omega)

/-- Witness for C1 at size 10, slice size 4 (the §8 scenario scaled down:
chunks of length 4, 4, 2). -/
theorem chunk_plan_tiles_witness : (0 : Nat) < 4 ∧ ChunkPlanSpec 10 4 :=
  ⟨by decide, chunk_plan_tiles 10 4 (by decide)⟩

theorem pollLoop_never_completed (merge : Nat → Except String Bool)
    (hm : ∀ k, merge k = .ok false) (maxPollTimes interval : Nat) :
    ∀ pollCount, pollCount < maxPollTimes →
    Uploader.pollLoop merge maxPollTimes interval pollCount =
      (.error ("检查合并状态失败: 轮询检查上传状态超时"),
       ⟨maxPollTimes - pollCount, maxPollTimes - pollCount - 1,
        (maxPollTimes - pollCount - 1) * interval⟩) := by
  suffices main : ∀ fuel pollCount, maxPollTimes - pollCount = fuel →
      pollCount < maxPollTimes →
      Uploader.pollLoop merge maxPollTimes interval pollCount =
        (.error ("检查合并状态失败: 轮询检查上传状态超时"),
         ⟨maxPollTimes - pollCount, maxPollTimes - pollCount - 1,
          (maxPollTimes - pollCount - 1) * interval⟩) by
    intro pollCount hlt
    exact main (maxPollTimes - pollCount) pollCount rfl hlt
  intro fuel
  induction fuel with
  | zero =>
    intro pollCount hfuel hlt
    omega
  | succ n ih =>
    intro pollCount hfuel hlt
    rw [Uploader.pollLoop, if_pos hlt, hm]
    by_cases hend : maxPollTimes ≤ pollCount + 1
    · rw [if_pos hend]
      have h1 : maxPollTimes - pollCount = 1 := by omega
      simp [h1]
    · rw [if_neg hend]
      rw [ih (pollCount + 1) (by omega) (by omega)]
      have h2 : maxPollTimes - (pollCount + 1) + 1 = maxPollTimes - pollCount := by omega
      have h3 : maxPollTimes - (pollCount + 1) - 1 + 1 = maxPollTimes - pollCount - 1 := by
        omega
      have h4 : (maxPollTimes - (pollCount + 1) - 1) * interval + interval
          = (maxPollTimes - pollCount - 1) * interval := by
        rw [← h3]
        ring
      simp only
      rw [h2, h3, h4]

/-- Claim C3, amended: for every `pollInterval` and every `pollMaxTimes ≥ 1`,
if the merge-status check never reports completed, the poller performs exactly
`pollMaxTimes` status-check attempts, sleeping `pollInterval` between
consecutive attempts (`pollMaxTimes - 1` sleeps), and then fails with the
timeout error, so the total slept time `(pollMaxTimes - 1) * pollInterval`
is bounded by `pollInterval * pollMaxTimes`.
(The original claim fails at `pollMaxTimes = 0`, where the loop body never
runs and the poller returns success.) -/
theorem poll_timeout_bounded (merge : Nat → Except String Bool)
    (maxPollTimes interval : Nat) (h1 : 1 ≤ maxPollTimes)
    (hm : ∀ k, merge k = .ok false) :
    Uploader.pollUploadStatus merge maxPollTimes interval =
      (.error ("检查合并状态失败: 轮询检查上传状态超时"),
       ⟨maxPollTimes, maxPollTimes - 1, (maxPollTimes - 1) * interval⟩) ∧
    (maxPollTimes - 1) * interval ≤ interval * maxPollTimes := by
  constructor
  · have h := pollLoop_never_completed merge hm maxPollTimes interval 0 (by omega)
    simpa [Uploader.pollUploadStatus] using h
  · calc (maxPollTimes - 1) * interval ≤ maxPollTimes * interval :=
        Nat.mul_le_mul_right _ (by omega)
    _ = interval * maxPollTimes := mul_comm _ _

/-- Witness for the amended C3 at `pollMaxTimes = 3`, `pollInterval = 5`:
3 attempts, 2 sleeps, 10 ms slept, timeout failure. -/
theorem poll_timeout_bounded_witness :
    1 ≤ 3 ∧
    (Uploader.pollUploadStatus (fun _ => Except.ok false) 3 5 =
      (.error ("检查合并状态失败: 轮询检查上传状态超时"), ⟨3, 3 - 1, (3 - 1) * 5⟩) ∧
     (3 - 1) * 5 ≤ 5 * 3) :=
  ⟨by decide,
   poll_timeout_bounded (fun _ => Except.ok false) 3 5 (by decide) (fun _ => rfl)⟩

/-- Counterexample to C3 as stated: at `pollMaxTimes = 0` (and, e.g.,
`pollInterval = 5`) a merge check that never reports completed does not end
in a timeout failure — the `while` guard fails immediately and
`pollUploadStatus` returns success, so the session is not terminated with a
timeout failure. -/
theorem poll_zero_maxTimes_no_timeout :
    Uploader.pollUploadStatus (fun _ => Except.ok false) 0 5 =
      (Except.ok (), ⟨0, 0, 0⟩) ∧
    (Except.ok () : Except String Unit) ≠
      Except.error ("检查合并状态失败: 轮询检查上传状态超时") := by
  constructor
  · rw [Uploader.pollUploadStatus, Uploader.pollLoop]
    simp
  · simp

/-- Claim C8, amended: `readChunk` returns the bytes of
`[offset, min(offset + length, fileSize))` as one contiguous buffer —
exactly `length` bytes whenever `offset + length ≤ fileSize` — and fails
with a read error when the file is missing or access is denied; but when
the file is shorter than `offset + length` it succeeds with
`fileSize - offset` bytes instead of failing.
(The original claim fails on a short file: the read stream stops at
end-of-file without error, so fewer bytes are returned successfully.) -/
theorem readChunk_spec (data : List Nat) (start chunkSize : Nat) :
    (start + chunkSize ≤ data.length →
      Uploader.readChunk (.present data) start chunkSize =
        .ok ((data.drop start).take chunkSize) ∧
      ((data.drop start).take chunkSize).length = chunkSize) ∧
    (Uploader.readChunk (.present data) start chunkSize =
      .ok ((data.drop start).take chunkSize) ∧
     ((data.drop start).take chunkSize).length =
       min chunkSize (data.length - start)) ∧
    Uploader.readChunk .missing start chunkSize =
      .error ("读取文件失败: ENOENT: no such file or directory") ∧
    Uploader.readChunk .denied start chunkSize =
      .error ("读取文件失败: EACCES: permission denied") := by
  refine ⟨?_, ⟨rfl, ?_⟩, rfl, rfl⟩
  · intro hle
    refine ⟨rfl, ?_⟩
    simp [List.length_take, List.length_drop]
    omega
  · simp [List.length_take, List.length_drop]

/-- Witness for the amended C8: reading 2 bytes at offset 1 of a 4-byte
file returns exactly bytes `[2, 3]`. -/
theorem readChunk_spec_witness :
    1 + 2 ≤ ([1, 2, 3, 4] : List Nat).length ∧
    Uploader.readChunk (.present [1, 2, 3, 4]) 1 2 = .ok [2, 3] ∧
    ([2, 3] : List Nat).length = 2 :=
  ⟨by decide, ((readChunk_spec [1, 2, 3, 4] 1 2).1 (by decide)).1, by decide⟩

/-- Counterexample to C8 as stated: reading 2 bytes at offset 0 of a 1-byte
file does not fail — it succeeds with a single byte, fewer than requested. -/
theorem readChunk_short_file_no_error :
    Uploader.readChunk (.present [7]) 0 2 = .ok [7] ∧
    ([7] : List Nat).length = 1 ∧ (1 : Nat) ≠ 2 := by
  refine ⟨rfl, rfl, by decide⟩

theorem urlSum_succ (att : Nat → AttemptStep) (retryCount attempts : Nat) :
    urlSum att retryCount (attempts + 1) =
      urlReq (att retryCount) + urlSum att (retryCount + 1) attempts := by
  unfold urlSum
  rw [List.range_succ_eq_map]
  simp only [List.map_cons, List.sum_cons, List.map_map]
  have hfun : ((fun r => urlReq (att (retryCount + r))) ∘ Nat.succ)
      = fun r => urlReq (att (retryCount + 1 + r)) := by
    funext r
    simp only [Function.comp_apply]
    have h : retryCount + Nat.succ r = retryCount + 1 + r := by omega
    rw [h]
  rw [hfun, Nat.add_zero]

theorem urlSum_one (att : Nat → AttemptStep) (rc : Nat) :
    urlSum att rc 1 = urlReq (att rc) := by
  unfold urlSum
  rw [show List.range 1 = [0] from rfl]
  simp

theorem uploadChunk_ok (att : Nat → AttemptStep) (rT rD rc : Nat)
    (h : att rc = .ok) :
    Uploader.uploadChunk att rT rD rc = (.completed, ⟨1, 1, 0⟩) := by
  rw [Uploader.uploadChunk, Uploader.uploadChunkAux, h]

theorem uploadChunk_cancelled (att : Nat → AttemptStep) (rT rD rc : Nat)
    (h : att rc = .putCancel) :
    Uploader.uploadChunk att rT rD rc = (.aborted, ⟨1, 1, 0⟩) := by
  rw [Uploader.uploadChunk, Uploader.uploadChunkAux, h]

theorem uploadChunk_fail (att : Nat → AttemptStep) (rT rD rc : Nat)
    (hfail : isRetryableFailure (att rc) = true) :
    Uploader.uploadChunk att rT rD rc =
      if rc < rT then
        (((Uploader.uploadChunk att rT rD (rc + 1)).1 : ChunkOutcome),
         (⟨(Uploader.uploadChunk att rT rD (rc + 1)).2.attempts + 1,
           (Uploader.uploadChunk att rT rD (rc + 1)).2.urlRequests + urlReq (att rc),
           (Uploader.uploadChunk att rT rD (rc + 1)).2.sleepTotal + rD⟩ : ChunkRunStats))
      else (.errored (failMsg (att rc)), ⟨1, urlReq (att rc), 0⟩) := by
  by_cases hlt : rc < rT
  · have hrem : rT - rc = (rT - (rc + 1)) + 1 := by omega
    rw [if_pos hlt]
    cases hatt : att rc with
    | ok => rw [hatt] at hfail; simp [isRetryableFailure] at hfail
    | putCancel => rw [hatt] at hfail; simp [isRetryableFailure] at hfail
    | readFail msg =>
      rw [Uploader.uploadChunk, Uploader.uploadChunkAux, hatt, hrem]
      rfl
    | urlFail msg =>
      rw [Uploader.uploadChunk, Uploader.uploadChunkAux, hatt, hrem]
      rfl
    | putFail msg =>
      rw [Uploader.uploadChunk, Uploader.uploadChunkAux, hatt, hrem]
      rfl
  · have hrem : rT - rc = 0 := by omega
    rw [if_neg hlt]
    cases hatt : att rc with
    | ok => rw [hatt] at hfail; simp [isRetryableFailure] at hfail
    | putCancel => rw [hatt] at hfail; simp [isRetryableFailure] at hfail
    | readFail msg =>
      rw [Uploader.uploadChunk, Uploader.uploadChunkAux, hatt, hrem]
      rfl
    | urlFail msg =>
      rw [Uploader.uploadChunk, Uploader.uploadChunkAux, hatt, hrem]
      rfl
    | putFail msg =>
      rw [Uploader.uploadChunk, Uploader.uploadChunkAux, hatt, hrem]
      rfl

/-- A chunk whose first `k` attempts fail retryably and whose attempt `k`
(0-based; i.e. after `k` retries, `k ≤ retryTimes`) succeeds: the whole
operation completes, having made `k + 1` attempts, re-requested the
destination URL on every attempt that reached that step, and slept
`retryDelay` before each of the `k` retries. -/
theorem uploadChunk_retries_then_succeeds (att : Nat → AttemptStep)
    (rT rD : Nat) :
    ∀ k rc, rc + k ≤ rT →
      (∀ r, rc ≤ r → r < rc + k → isRetryableFailure (att r) = true) →
      att (rc + k) = .ok →
      Uploader.uploadChunk att rT rD rc =
        (.completed, ⟨k + 1, urlSum att rc (k + 1), k * rD⟩) := by
  intro k
  induction k with
  | zero =>
    intro rc hle hfail hok
    rw [Nat.add_zero] at hok
    rw [uploadChunk_ok att rT rD rc hok]
    simp [urlSum_one, hok, urlReq]
  | succ k ih =>
    intro rc hle hfail hok
    have hrc : isRetryableFailure (att rc) = true := hfail rc le_rfl (by omega)
    have hlt : rc < rT := by omega
    have hshift : rc + 1 + k = rc + (k + 1) := by omega
    have hih := ih (rc + 1) (by omega)
      (fun r h1 h2 => hfail r (by omega) (by omega))
      (by rw [hshift]; exact hok)
    rw [uploadChunk_fail att rT rD rc hrc, if_pos hlt, hih]
    have hurl : urlSum att rc (k + 1 + 1) =
        urlReq (att rc) + urlSum att (rc + 1) (k + 1) := urlSum_succ att rc (k + 1)
    have hsleep : k * rD + rD = (k + 1) * rD := by ring
    simp only [hurl]
    rw [Nat.add_comm (urlReq (att rc)) (urlSum att (rc + 1) (k + 1)), hsleep]

/-- A chunk all of whose attempts `0 .. retryTimes` fail retryably: the
operation makes `retryTimes + 1` attempts (the initial one plus
`retryTimes` retries) and only then propagates the final attempt's error,
sleeping `retryDelay` before each retry. -/
theorem uploadChunk_exhausts_retries (att : Nat → AttemptStep)
    (rT rD : Nat)
    (hfail : ∀ r, r ≤ rT → isRetryableFailure (att r) = true) :
    (Uploader.uploadChunk att rT rD 0).1 = .errored (failMsg (att rT)) ∧
    (Uploader.uploadChunk att rT rD 0).2.attempts = rT + 1 ∧
    (Uploader.uploadChunk att rT rD 0).2.sleepTotal = rT * rD := by
  suffices main : ∀ k rc, rc + k = rT →
      Uploader.uploadChunk att rT rD rc =
        (.errored (failMsg (att rT)),
         ⟨k + 1, urlSum att rc (k + 1), k * rD⟩) by
    have h := main rT 0 (by omega)
    rw [h]
    exact ⟨rfl, rfl, rfl⟩
  intro k
  induction k with
  | zero =>
    intro rc h0
    have hrc : rc = rT := by omega
    rw [hrc]
    rw [uploadChunk_fail att rT rD rT (hfail rT le_rfl), if_neg (by omega)]
    simp [urlSum_one]
  | succ k ih =>
    intro rc h0
    have hrc : isRetryableFailure (att rc) = true := hfail rc (by omega)
    have hlt : rc < rT := by omega
    have hih := ih (rc + 1) (by omega)
    rw [uploadChunk_fail att rT rD rc hrc, if_pos hlt, hih]
    have hurl : urlSum att rc (k + 1 + 1) =
        urlReq (att rc) + urlSum att (rc + 1) (k + 1) := urlSum_succ att rc (k + 1)
    have hsleep : k * rD + rD = (k + 1) * rD := by ring
    simp only [hurl]
    rw [Nat.add_comm (urlReq (att rc)) (urlSum att (rc + 1) (k + 1)), hsleep]

/-- Counterexample to C2 as stated: on a session whose status is the
terminal `completed`, `cancel()` changes the status to `cancel` (so
`completed` is not terminal against `cancel()`), and a second `cancel()`
call emits a further `cancel` event (so it is not a no-op and more than
one `cancel` event can be emitted over a session's lifetime). -/
theorem cancel_unguarded_counterexample :
    (Uploader.cancel ⟨.completed, initPass 0⟩).1.status = Status.cancel ∧
    Status.cancel ≠ Status.completed ∧
    (Uploader.cancel (Uploader.cancel ⟨.completed, initPass 0⟩).1).2 =
      [Event.cancelEv] :=
  ⟨rfl, by decide, rfl⟩

/-- Claim C2, amended: `pause()` and `resume()` never change a terminal
status (they return without effect unless the status is `running`,
respectively `paused`); `cancel()`, however, is unguarded — called in any
status, including `completed`, `error` and `cancel` itself, it sets the
status to `cancel` and emits a `cancel` event, so a second `cancel()`
leaves the status at `cancel` (idempotent on the status alone) but emits
a second `cancel` event rather than being a no-op; `upload()` is likewise
unguarded and sets the status to `running` on entry. -/
theorem session_ops_guarded (s : Session) :
    (s.status ≠ .running → Uploader.pause s = (s, [])) ∧
    (s.status ≠ .paused → Uploader.resume s = (s, [])) ∧
    (Uploader.cancel s).1.status = .cancel ∧
    (Uploader.cancel s).2 = [.cancelEv] ∧
    (Uploader.cancel (Uploader.cancel s).1).1.status = .cancel ∧
    (Uploader.cancel (Uploader.cancel s).1).2 = [.cancelEv] ∧
    (Uploader.uploadEntry s).1.status = .running := by
  refine ⟨?_, ?_, rfl, rfl, rfl, rfl, rfl⟩
  · intro h
    rw [Uploader.pause, if_neg h]
  · intro h
    rw [Uploader.resume, if_neg h]

/-- Witness for the amended C2 on a concrete `completed` session. -/
theorem session_ops_guarded_witness :
    (Session.mk .completed (initPass 1)).status ≠ .running ∧
    (Session.mk .completed (initPass 1)).status ≠ .paused ∧
    Uploader.pause (Session.mk .completed (initPass 1)) =
      (Session.mk .completed (initPass 1), []) ∧
    Uploader.resume (Session.mk .completed (initPass 1)) =
      (Session.mk .completed (initPass 1), []) ∧
    (Uploader.cancel (Session.mk .completed (initPass 1))).1.status = .cancel :=
  have h := session_ops_guarded (Session.mk .completed (initPass 1))
  ⟨by decide, by decide, h.1 (by decide), h.2.1 (by decide), h.2.2.1⟩

/-- Claim C6: a session whose create-task response has `reuse = true` and a
non-empty file id `f` resolves to `{fileId: f, filename: this.filename}`
(the constructor's `path.basename(filePath)`; `upload()` is called without
a `target`), emits exactly `start`, the `preupload` progress event, the
`complete` progress event and the `completed` event — in particular no
`uploading`-phase progress event — reaches status `completed`, and invokes
no remote operation beyond the create call: neither `get_upload_url` nor
any chunk byte transfer. -/
theorem reuse_short_circuits (env : UploadEnv) (resp : CreateResp)
    (f : String) (st : Status)
    (hc : env.create = .ok resp) (hr : resp.reuse = true)
    (hf : resp.fileID = some f) (hne : f ≠ "") :
    Uploader.upload env none st =
      (.resolved (some (f, env.filename)), .completed,
       [.start, .progressPreupload, .progressComplete,
        .completedEv f env.filename],
       [.createOp]) := by
  unfold Uploader.upload uploadBody
  rw [hc]
  simp [hr, completedInfo, fallbackId, hf, hne]

/-- Witness for C6 on the concrete reuse scenario. -/
theorem reuse_short_circuits_witness :
    Uploader.upload envReuse none .running =
      (.resolved (some ("F1", envReuse.filename)), .completed,
       [.start, .progressPreupload, .progressComplete,
        .completedEv "F1" envReuse.filename],
       [.createOp]) :=
  reuse_short_circuits envReuse
    { fileID := some ("F1"), reuse := true, preuploadID := "pre", sliceSize := 16 }
    "F1" .running rfl rfl rfl (by decide)

/-- Claim C9 evaluated at the failing input (code bug): a 0-byte file
yields zero chunk tasks, no task is ever added to the queue, so by
p-queue's `idle` semantics the `uploadChunks` promise never settles and
`upload()` hangs instead of proceeding to the completion request —
although the idle handler itself would have resolved `true`
(`parts.length === totalChunks` as `0 === 0`), showing the hang is not
the intended behaviour. -/
theorem zero_size_upload_hangs :
    chunksCount 0 (16 * 1024 * 1024) = 0 ∧
    planChunks 0 (16 * 1024 * 1024) = [] ∧
    (runSteps (chunkOut envZero) (chunkLen 0 (16 * 1024 * 1024)) 1
      (initPass 0)).settled = none ∧
    resolveIdle 0 0 = .resolvedTrue ∧
    (Uploader.upload envZero none .running).1 = .hang := by
  refine ⟨by decide, by decide, rfl, by decide, rfl⟩

theorem errorEv_not_mem_chunkTraceEvents (env : UploadEnv) (total : Nat)
    (m : String) : Event.errorEv m ∉ chunkTraceEvents env total := by
  unfold chunkTraceEvents
  intro h
  rw [List.mem_join] at h
  obtain ⟨l, hl, hm⟩ := h
  rw [List.mem_map] at hl
  obtain ⟨i, _, rfl⟩ := hl
  revert hm
  split <;> simp

theorem errorEv_not_mem_afterPass (env : UploadEnv) (resp : CreateResp)
    (target : Option String) (st : Status) (settled : Option PassResult)
    (m : String) :
    Event.errorEv m ∉ (afterPass env resp target st settled).2.1 := by
  rcases settled with _ | pr
  · simp [afterPass]
  · rcases pr with _ | _ | msg
    · rcases hf : env.finish with msg | fr
      · simp [afterPass, hf]
      · rcases fr with ⟨au, ffid, co⟩
        cases au <;> cases co
        · simp [afterPass, hf]
        · simp [afterPass, hf]
        · rcases hpr : (Uploader.pollUploadStatus env.merge env.pollMaxTimes
              env.pollInterval).1 with msg | u
          · simp [afterPass, hf, hpr, List.mem_replicate]
          · simp [afterPass, hf, hpr, List.mem_replicate]
        · simp [afterPass, hf]
    · simp [afterPass]
    · simp [afterPass]

theorem errorEv_not_mem_uploadBody (env : UploadEnv) (target : Option String)
    (st : Status) (m : String) :
    Event.errorEv m ∉ (uploadBody env target st).2.1 := by
  rcases hc : env.create with msg | resp
  · simp [uploadBody, hc]
  · by_cases hr : resp.reuse
    · simp [uploadBody, hc, hr]
    · simp [uploadBody, hc, hr, List.mem_append]
      exact ⟨errorEv_not_mem_chunkTraceEvents env _ m,
             errorEv_not_mem_afterPass env resp target st _ m⟩

/-- Claim C5: for every exception raised inside `upload()` — i.e. whenever
the try block's outcome is `raised msg` — if the session status read by
the catch handler is not `cancel`, the session emits an `error` event,
moves to terminal status `error`, and re-raises the exception; if the
status is `cancel`, the exception is swallowed: `upload()` resolves
`undefined`, the status stays `cancel`, and no `error` event is ever
emitted (uploader.ts lines 261-267). -/
theorem upload_error_handling (env : UploadEnv) (target : Option String)
    (st : Status) (msg : String)
    (hraise : (uploadBody env target st).1 = .raised msg) :
    (st ≠ .cancel →
      Uploader.upload env target st =
        (.threw msg, .error,
         (uploadBody env target st).2.1 ++ [.errorEv msg],
         (uploadBody env target st).2.2)) ∧
    (st = .cancel →
      Uploader.upload env target st =
        (.resolved none, st,
         (uploadBody env target st).2.1, (uploadBody env target st).2.2) ∧
      ∀ m, Event.errorEv m ∉ (Uploader.upload env target st).2.2.1) := by
  constructor
  · intro hst
    unfold Uploader.upload
    rcases hb : uploadBody env target st with ⟨b, evs, ops⟩
    rw [hb] at hraise
    simp only at hraise
    rw [hraise]
    rw [hb] at *
    simp [if_neg hst]
  · intro hst
    have hmem := errorEv_not_mem_uploadBody env target st
    unfold Uploader.upload
    rcases hb : uploadBody env target st with ⟨b, evs, ops⟩
    rw [hb] at hraise
    simp only at hraise
    rw [hraise]
    rw [hb] at hmem
    simp only at hmem
    simp [if_pos hst]
    exact hmem

/-- Witness for C5: the failing create call, caught once with status
`running` (error event, status `error`, rethrow) and once with status
`cancel` (swallowed, no error event). -/
theorem upload_error_handling_witness :
    ((uploadBody envCreateFails none .running).1 =
      .raised ("创建上传任务失败: network down")) ∧
    (Uploader.upload envCreateFails none .running =
      (.threw ("创建上传任务失败: network down"), .error,
       (uploadBody envCreateFails none .running).2.1 ++
         [.errorEv ("创建上传任务失败: network down")],
       (uploadBody envCreateFails none .running).2.2)) ∧
    (Uploader.upload envCreateFails none .cancel =
      (.resolved none, .cancel,
       (uploadBody envCreateFails none .cancel).2.1,
       (uploadBody envCreateFails none .cancel).2.2)) :=
  ⟨rfl,
   (upload_error_handling envCreateFails none .running _ rfl).1 (by decide),
   ((upload_error_handling envCreateFails none .cancel _ rfl).2 rfl).1⟩

theorem afterPass_ok_some (env : UploadEnv) (resp : CreateResp)
    (target : Option String) (st : Status) (settled : Option PassResult)
    (i : String × String)
    (h : (afterPass env resp target st settled).1 = .ok (some i)) :
    i = completedInfo resp target env.filename := by
  rcases settled with _ | pr
  · simp [afterPass] at h
  · rcases pr with _ | _ | msg
    · simp only [afterPass] at h
      rcases hf : env.finish with msg | fr
      · rw [hf] at h
        simp at h
      · rw [hf] at h
        rcases fr with ⟨au, ffid, co⟩
        cases au <;> cases co
        · simp at h
          exact h.symm
        · simp at h
          exact h.symm
        · rcases hpr : (Uploader.pollUploadStatus env.merge env.pollMaxTimes
              env.pollInterval).1 with msg | u <;> simp [hpr] at h
          exact h.symm
        · simp at h
          exact h.symm
    · revert h
      simp only [afterPass]
      split <;> simp
    · simp [afterPass] at h

theorem uploadBody_ok_some (env : UploadEnv) (target : Option String)
    (st : Status) (resp : CreateResp) (i : String × String)
    (hc : env.create = .ok resp)
    (h : (uploadBody env target st).1 = .ok (some i)) :
    i = completedInfo resp target env.filename := by
  by_cases hr : resp.reuse
  · simp [uploadBody, hc, hr] at h
    exact h.symm
  · simp only [uploadBody, hc, hr] at h
    simp only [Bool.false_eq_true, if_neg] at h
    exact afterPass_ok_some env resp target st _ i h

theorem upload_resolved_some (env : UploadEnv) (target : Option String)
    (st : Status) (p : String × String)
    (h : (Uploader.upload env target st).1 = .resolved (some p)) :
    (uploadBody env target st).1 = .ok (some p) := by
  unfold Uploader.upload at h
  rcases hb : uploadBody env target st with ⟨b, evs, ops⟩
  rw [hb] at h
  rcases b with info | msg | _
  · rcases info with _ | q
    · simp at h
    · simp at h ⊢
      exact h
  · by_cases hst : st = .cancel
    · simp [hst] at h
    · simp [hst] at h
  · simp at h

theorem upload_finish_fileID_irrelevant (env : UploadEnv)
    (target : Option String) (st : Status) (x : String) :
    Uploader.upload (setFinishFileID env x) target st =
      Uploader.upload env target st := by
  have hatt : chunkOut (setFinishFileID env x) = chunkOut env := rfl
  have hsize : (setFinishFileID env x).size = env.size := rfl
  have hfile : (setFinishFileID env x).filename = env.filename := rfl
  have hcreate : (setFinishFileID env x).create = env.create := rfl
  have hmerge : (setFinishFileID env x).merge = env.merge := rfl
  have hmax : (setFinishFileID env x).pollMaxTimes = env.pollMaxTimes := rfl
  have hint : (setFinishFileID env x).pollInterval = env.pollInterval := rfl
  have hev : chunkTraceEvents (setFinishFileID env x) = chunkTraceEvents env := rfl
  have hop : chunkTraceOps (setFinishFileID env x) = chunkTraceOps env := rfl
  rcases hf : env.finish with msg | fr
  · have hxf : (setFinishFileID env x).finish = .error msg := by
      simp [setFinishFileID, hf]
    unfold Uploader.upload uploadBody afterPass
    rw [hatt, hsize, hfile, hcreate, hmerge, hmax, hint, hev, hop, hxf, hf]
  · have hxf : (setFinishFileID env x).finish = .ok { fr with fileID := x } := by
      simp [setFinishFileID, hf]
    unfold Uploader.upload uploadBody afterPass
    rw [hatt, hsize, hfile, hcreate, hmerge, hmax, hint, hev, hop, hxf, hf]

/-- Claim C10: whenever `upload()` resolves with a file id, that id comes
from the create-task response — `fileID || preuploadID`, i.e. the
response's `fileID` with fallback to the preupload identifier when the
field is absent (`none`) or empty (`""`) — and its filename is
`target || this.filename`; replacing the `fileID` of the finish-upload
(`upload_complete`) response changes nothing about `upload()`'s behaviour,
so the finish response's `fileID` is never used (uploader.ts lines
183-185, 242-246, 554-575). -/
theorem upload_fileId_from_create (env : UploadEnv) (target : Option String)
    (st : Status) (resp : CreateResp) (fid fname pre s x : String) :
    (env.create = .ok resp →
      (Uploader.upload env target st).1 = .resolved (some (fid, fname)) →
      fid = fallbackId resp.fileID resp.preuploadID ∧
      fname = target.getD env.filename) ∧
    fallbackId none pre = pre ∧
    fallbackId (some ("")) pre = pre ∧
    (s ≠ "" → fallbackId (some s) pre = s) ∧
    Uploader.upload (setFinishFileID env x) target st =
      Uploader.upload env target st := by
  refine ⟨?_, rfl, by simp [fallbackId], ?_, upload_finish_fileID_irrelevant env target st x⟩
  · intro hc hres
    have h1 := upload_resolved_some env target st (fid, fname) hres
    have h2 := uploadBody_ok_some env target st resp (fid, fname) hc h1
    unfold completedInfo at h2
    exact ⟨congrArg Prod.fst h2, congrArg Prod.snd h2⟩
  · intro hs
    simp [fallbackId, hs]

/-- Witness for C10: the completed 2-chunk session resolves with the
create response's `"F1"`, not the finish response's `"OTHER"`, and
replacing the finish `fileID` changes nothing. -/
theorem upload_fileId_from_create_witness :
    (Uploader.upload envFull none .running).1 =
      .resolved (some ("F1", "file.bin")) ∧
    ("F1" = fallbackId (some ("F1")) "pre" ∧
     "file.bin" = (none : Option String).getD envFull.filename) ∧
    Uploader.upload (setFinishFileID envFull "ANOTHER") none .running =
      Uploader.upload envFull none .running :=
  have h := upload_fileId_from_create envFull none .running
    { fileID := some ("F1"), reuse := false, preuploadID := "pre", sliceSize := 4 }
    "F1" "file.bin" "pre" "x" "ANOTHER"
  ⟨rfl, h.1 rfl rfl, h.2.2.2.2⟩

theorem inv2_init {n : Nat} (hn : 0 < n) : Inv2 n (initPass n) := by
  refine ⟨rfl, rfl, List.nodup_range n, ?_, ?_, ?_, ?_, ?_, ?_, ?_, ?_, ?_⟩
  · intro i hi
    simpa [initPass] using List.mem_range.1 hi
  · intro i _
    rfl
  · intro i h
    simp [initPass] at h
  · intro i h
    simp [initPass] at h
  · intro i h
    simp [initPass] at h
  · intro i _
    left
    rfl
  · intro i hi _
    simpa [initPass] using List.mem_range.2 hi
  · simp [initPass]
  · right
    refine ⟨rfl, Or.inl ?_⟩
    simp [initPass]
    omega

theorem inv_of_inv2_none {n : Nat} {s : PassState} (h : Inv2 n s)
    (hr : s.running = none) : Inv n s := by
  refine ⟨h.total_eq, h.not_paused, hr, h.nodup, h.queued_lt, h.queued_pending,
    h.pending_queued, ?_, ?_, ?_, ?_⟩
  · intro i hi
    rcases h.status_cases i hi with hp | hc | ⟨hrun, _⟩
    · exact Or.inl hp
    · exact Or.inr hc
    · rw [hr] at hrun
      cases hrun
  · have := h.parts_count
    rw [hr] at this
    simp at this
    omega
  · intro hq
    rcases h.settled_inv with ⟨_, _, hs⟩ | ⟨_, hne⟩
    · exact hs
    · rcases hne with hne | hne
      · exact absurd hq hne
      · exact absurd hr hne
  · intro hq
    rcases h.settled_inv with ⟨hq2, _, _⟩ | ⟨hs, _⟩
    · exact absurd hq2 hq
    · exact hs

theorem idleCheck_fields (s : PassState) :
    (idleCheck s).total = s.total ∧ (idleCheck s).tasks = s.tasks ∧
    (idleCheck s).queued = s.queued ∧ (idleCheck s).running = s.running ∧
    (idleCheck s).parts = s.parts ∧ (idleCheck s).paused = s.paused ∧
    (idleCheck s).progress = s.progress := by
  unfold idleCheck
  split
  · split <;> exact ⟨rfl, rfl, rfl, rfl, rfl, rfl, rfl⟩
  · exact ⟨rfl, rfl, rfl, rfl, rfl, rfl, rfl⟩

theorem idleCheck_settled_of_ne (s : PassState)
    (h : ¬(s.queued = [] ∧ s.running = none)) :
    (idleCheck s).settled = s.settled := by
  unfold idleCheck
  rw [if_neg h]

theorem idleCheck_settled_set (s : PassState) (h1 : s.queued = [])
    (h2 : s.running = none) (h3 : s.settled = none) :
    (idleCheck s).settled = some (resolveIdle s.parts.length s.total) := by
  unfold idleCheck
  rw [if_pos ⟨h1, h2⟩, h3]

theorem idleCheck_settled_keep (s : PassState) (r : PassResult)
    (h3 : s.settled = some r) : (idleCheck s).settled = some r := by
  unfold idleCheck
  split
  · rw [h3]
    exact h3
  · exact h3

theorem resolveIdle_all (n : Nat) (hn : 0 < n) :
    resolveIdle n n = .resolvedTrue := by
  unfold resolveIdle
  rw [if_neg (by omega), if_pos rfl]

theorem inv2_step {n : Nat} {out : Nat → ChunkOutcome} {len : Nat → Nat}
    {s : PassState} (h : Inv2 n s) (hout : ∀ i, i < n → out i = .completed) :
    Inv2 n (step out len s) := by
  unfold step
  rw [h.not_paused]
  simp only [Bool.false_eq_true, if_false]
  rcases hr : s.running with _ | i
  · unfold startNext
    rcases hq : s.queued with _ | ⟨i, rest⟩
    · exact h
    · -- start task i
      have hiq : i ∈ s.queued := by rw [hq]; exact List.mem_cons_self i rest
      have hilt : i < n := h.queued_lt i hiq
      have hnodup := h.nodup
      rw [hq] at hnodup
      have hirest : i ∉ rest := (List.nodup_cons.1 hnodup).1
      refine ⟨h.total_eq, h.not_paused, (List.nodup_cons.1 hnodup).2, ?_, ?_, ?_,
        ?_, ?_, ?_, ?_, ?_, ?_⟩
      · intro j hj
        exact h.queued_lt j (by rw [hq]; exact List.mem_cons_of_mem i hj)
      · intro j hj
        simp only
        rw [if_neg (by rintro rfl; exact hirest hj)]
        exact h.queued_pending j (by rw [hq]; exact List.mem_cons_of_mem i hj)
      · intro j hj
        simp only at hj
        rw [Option.some_inj] at hj
        subst hj
        exact hirest
      · intro j hj
        simp only at hj
        rw [Option.some_inj] at hj
        subst hj
        exact hilt
      · intro j hj
        simp only at hj ⊢
        rw [Option.some_inj] at hj
        subst hj
        rw [if_pos rfl]
      · intro j hjlt
        simp only
        by_cases hji : j = i
        · subst hji
          right; right
          exact ⟨rfl, by rw [if_pos rfl]⟩
        · rw [if_neg hji]
          rcases h.status_cases j hjlt with hp | hc | ⟨hrun, _⟩
          · exact Or.inl hp
          · exact Or.inr (Or.inl hc)
          · rw [hr] at hrun
            cases hrun
      · intro j hjlt hjp
        simp only at hjp
        by_cases hji : j = i
        · subst hji
          rw [if_pos rfl] at hjp
          cases hjp
        · rw [if_neg hji] at hjp
          have := h.pending_queued j hjlt hjp
          rw [hq] at this
          rcases List.mem_cons.1 this with hji2 | hmem
          · exact absurd hji2 hji
          · exact hmem
      · have hp := h.parts_count
        rw [hr, hq] at hp
        have hp2 : s.parts.length + (rest.length + 1) = n := by simpa using hp
        show s.parts.length + rest.length + 1 = n
        omega
      · rcases h.settled_inv with ⟨hq2, _, _⟩ | ⟨hs2, _⟩
        · rw [hq] at hq2
          cases hq2
        · right
          exact ⟨hs2, Or.inr (by simp)⟩
  · -- finish the in-flight task i, which completes
    have hilt : i < n := h.running_lt i hr
    show Inv2 n (finishCurrent out len i s)
    unfold finishCurrent
    rw [hout i hilt]
    show Inv2 n (finishCompleted len i s)
    unfold finishCompleted
    have hinq : i ∉ s.queued := h.running_not_queued i hr
    set s2 : PassState :=
      { s with
        tasks := fun j => if j = i then ⟨TaskSt.completed, (s.tasks j).gen⟩
          else s.tasks j
        progress := fun j => if j = i then len i else s.progress j
        parts := s.parts ++ [i + 1]
        running := none } with hs2
    have hf := idleCheck_fields s2
    have hsettled_old : s.settled = none := by
      rcases h.settled_inv with ⟨_, hrn, _⟩ | ⟨hs3, _⟩
      · rw [hr] at hrn
        cases hrn
      · exact hs3
    have hcount := h.parts_count
    rw [hr] at hcount
    have hcount2 : s.parts.length + s.queued.length + 1 = n := by simpa using hcount
    refine ⟨?_, ?_, ?_, ?_, ?_, ?_, ?_, ?_, ?_, ?_, ?_, ?_⟩
    · rw [hf.1, h.total_eq]
    · rw [hf.2.2.2.2.2.1]
      exact h.not_paused
    · rw [hf.2.2.1]
      exact h.nodup
    · intro j hj
      rw [hf.2.2.1] at hj
      exact h.queued_lt j hj
    · intro j hj
      rw [hf.2.2.1] at hj
      rw [hf.2.1]
      simp only
      rw [if_neg (by rintro rfl; exact hinq hj)]
      exact h.queued_pending j hj
    · intro j hj
      rw [hf.2.2.2.1] at hj
      simp at hj
    · intro j hj
      rw [hf.2.2.2.1] at hj
      simp at hj
    · intro j hj
      rw [hf.2.2.2.1] at hj
      simp at hj
    · intro j hjlt
      rw [hf.2.1]
      simp only
      by_cases hji : j = i
      · subst hji
        rw [if_pos rfl]
        exact Or.inr (Or.inl rfl)
      · rw [if_neg hji]
        rcases h.status_cases j hjlt with hp | hc | ⟨hrun, _⟩
        · exact Or.inl hp
        · exact Or.inr (Or.inl hc)
        · rw [hr] at hrun
          rw [Option.some_inj] at hrun
          exact absurd hrun.symm hji
    · intro j hjlt hjp
      rw [hf.2.1] at hjp
      rw [hf.2.2.1]
      simp only at hjp
      by_cases hji : j = i
      · subst hji
        rw [if_pos rfl] at hjp
        cases hjp
      · rw [if_neg hji] at hjp
        exact h.pending_queued j hjlt hjp
    · rw [hf.2.2.2.2.1, hf.2.2.1, hf.2.2.2.1]
      simp only
      simp [List.length_append]
      omega
    · by_cases hq : s.queued = []
      · left
        have hset := idleCheck_settled_set s2 (by simp [hs2, hq]) (by simp [hs2])
          (by simpa [hs2] using hsettled_old)
        have hq0 : s.queued.length = 0 := by rw [hq]; rfl
        refine ⟨by rw [hf.2.2.1]; exact hq, by rw [hf.2.2.2.1], ?_⟩
        rw [hset]
        have hparts2 : s2.parts.length = n := by
          simp [hs2, List.length_append]
          omega
        have htot2 : s2.total = n := h.total_eq
        rw [hparts2, htot2, resolveIdle_all n (by omega)]
      · right
        have hset := idleCheck_settled_of_ne s2 (by
          intro hcon
          exact hq (by simpa [hs2] using hcon.1))
        refine ⟨?_, Or.inl (by rw [hf.2.2.1]; exact hq)⟩
        rw [hset]
        simpa [hs2] using hsettled_old

theorem inv2_of_inv {n : Nat} {s : PassState} (h : Inv n s) : Inv2 n s := by
  refine ⟨h.total_eq, h.not_paused, h.nodup, h.queued_lt, h.queued_pending,
    ?_, ?_, ?_, ?_, h.pending_queued, ?_, ?_⟩
  · intro i hi
    rw [h.no_running] at hi
    cases hi
  · intro i hi
    rw [h.no_running] at hi
    cases hi
  · intro i hi
    rw [h.no_running] at hi
    cases hi
  · intro i hi
    rcases h.status_pc i hi with hp | hc
    · exact Or.inl hp
    · exact Or.inr (Or.inl hc)
  · rw [h.no_running]
    simpa using h.parts_count
  · by_cases hq : s.queued = []
    · exact Or.inl ⟨hq, h.no_running, h.settled_done hq⟩
    · exact Or.inr ⟨h.settled_none hq, Or.inl hq⟩

theorem inv2_runSteps {n : Nat} {out : Nat → ChunkOutcome} {len : Nat → Nat}
    {s : PassState} (h : Inv2 n s) (hout : ∀ i, i < n → out i = .completed) :
    ∀ k, Inv2 n (runSteps out len k s) := by
  intro k
  induction k generalizing s with
  | zero => exact h
  | succ k ih => exact ih (inv2_step h hout)

theorem step_fixed {out : Nat → ChunkOutcome} {len : Nat → Nat} {s : PassState}
    (h1 : s.paused = false) (h2 : s.running = none) (h3 : s.queued = []) :
    step out len s = s := by
  unfold step startNext
  simp only [h1, Bool.false_eq_true, if_false]
  rw [h2, h3]

theorem runSteps_fixed {out : Nat → ChunkOutcome} {len : Nat → Nat}
    {s : PassState} (h : step out len s = s) (k : Nat) :
    runSteps out len k s = s := by
  induction k with
  | zero => rfl
  | succ k ih =>
    show runSteps out len k (step out len s) = s
    rw [h]
    exact ih

theorem runSteps_succ_succ (out : Nat → ChunkOutcome) (len : Nat → Nat)
    (m : Nat) (s : PassState) :
    runSteps out len (m + 2) s =
      runSteps out len m (step out len (step out len s)) := rfl

theorem step_start {out : Nat → ChunkOutcome} {len : Nat → Nat} {s : PassState}
    {i : Nat} {rest : List Nat} (hp : s.paused = false) (hr : s.running = none)
    (hq : s.queued = i :: rest) :
    step out len s =
      { s with
        queued := rest
        running := some i
        tasks := (fun j => if j = i then ⟨.running, (s.tasks j).gen⟩
          else s.tasks j) } := by
  unfold step startNext
  simp only [hp, Bool.false_eq_true, if_false]
  rw [hr, hq]

theorem step_finish {out : Nat → ChunkOutcome} {len : Nat → Nat} {s : PassState}
    {i : Nat} (hp : s.paused = false) (hr : s.running = some i) :
    step out len s = finishCurrent out len i s := by
  unfold step
  simp only [hp, Bool.false_eq_true, if_false]
  rw [hr]

/-- Draining a quiescent pass whose chunks all complete: `2 * k` further
scheduler steps (for any `k` at least the queue length) leave every task
done and the promise resolved `true`. -/
theorem drain {n : Nat} {out : Nat → ChunkOutcome} {len : Nat → Nat}
    (hout : ∀ i, i < n → out i = .completed) :
    ∀ k s, Inv n s → s.queued.length ≤ k →
      Inv n (runSteps out len (2 * k) s) ∧
      (runSteps out len (2 * k) s).queued = [] ∧
      (runSteps out len (2 * k) s).settled = some .resolvedTrue := by
  intro k
  induction k with
  | zero =>
    intro s hInv hlen
    have hq : s.queued = [] := List.length_eq_zero.1 (by omega)
    exact ⟨hInv, hq, hInv.settled_done hq⟩
  | succ k ih =>
    intro s hInv hlen
    rcases hq : s.queued with _ | ⟨i, rest⟩
    · have hfix : step out len s = s :=
        step_fixed hInv.not_paused hInv.no_running hq
      have hrun : runSteps out len (2 * (k + 1)) s = s := runSteps_fixed hfix _
      rw [hrun]
      exact ⟨hInv, hq, hInv.settled_done hq⟩
    · have hilt : i < n := hInv.queued_lt i (by rw [hq]; exact List.mem_cons_self i rest)
      have h2 : Inv2 n s := inv2_of_inv hInv
      have hstep2 : Inv2 n (step out len (step out len s)) :=
        inv2_step (inv2_step h2 hout) hout
      have hs1 := @step_start out len s i rest hInv.not_paused
        hInv.no_running hq
      have hs1run : (step out len s).running = some i := by rw [hs1]
      have hs1paused : (step out len s).paused = false := by
        rw [hs1]
        exact hInv.not_paused
      have hs2eq : step out len (step out len s) =
          finishCurrent out len i (step out len s) :=
        step_finish hs1paused hs1run
      have hs2run : (step out len (step out len s)).running = none := by
        rw [hs2eq]
        unfold finishCurrent
        rw [hout i hilt]
        show (finishCompleted len i (step out len s)).running = none
        unfold finishCompleted
        rw [(idleCheck_fields _).2.2.2.1]
      have hs2q : (step out len (step out len s)).queued = rest := by
        rw [hs2eq]
        unfold finishCurrent
        rw [hout i hilt]
        show (finishCompleted len i (step out len s)).queued = rest
        unfold finishCompleted
        rw [(idleCheck_fields _).2.2.1]
        show (step out len s).queued = rest
        rw [hs1]
      have hInv2' : Inv n (step out len (step out len s)) :=
        inv_of_inv2_none hstep2 hs2run
      have hlen2 : (step out len (step out len s)).queued.length ≤ k := by
        rw [hs2q]
        have : s.queued.length = rest.length + 1 := by rw [hq]; rfl
        omega
      have hsplit : 2 * (k + 1) = 2 * k + 2 := by ring
      rw [hsplit, runSteps_succ_succ]
      exact ih (step out len (step out len s)) hInv2' hlen2

theorem filter_range_eq_nil {n : Nat} (p : Nat → Bool)
    (hall : ∀ j, j < n → ¬p j = true) : (List.range n).filter p = [] := by
  rw [List.filter_eq_nil]
  intro a ha
  exact hall a (List.mem_range.1 ha)

theorem filter_range_eq_singleton {n i : Nat} (p : Nat → Bool) (hi : i < n)
    (hp : p i = true) (huniq : ∀ j, j < n → p j = true → j = i) :
    (List.range n).filter p = [i] := by
  induction n with
  | zero => omega
  | succ n ih =>
    rw [List.range_succ, List.filter_append]
    by_cases hin : i = n
    · subst hin
      have hnil : (List.range i).filter p = [] := by
        apply filter_range_eq_nil
        intro j hj hpj
        have := huniq j (by omega) hpj
        omega
      rw [hnil]
      simp [hp]
    · have hlt : i < n := by omega
      have hpn : ¬p n = true := by
        intro hpn
        exact hin (huniq n (by omega) hpn).symm
      rw [ih hlt (fun j hj hpj => huniq j (by omega) hpj)]
      simp [hpn]

theorem pause_pinv {n : Nat} {s : PassState} (h : Inv2 n s)
    (hgood : s.queued ≠ [] ∨ s.running = none) :
    (Uploader.pause ⟨.running, s⟩).1.status = .paused ∧
    PInv n (Uploader.pause ⟨.running, s⟩).1.pass := by
  unfold Uploader.pause
  rw [if_pos rfl]
  dsimp only
  rcases hr : s.running with _ | i
  · -- nothing in flight: pausing only pauses the queue
    have hnoabort : ∀ j, j < n → ¬(s.tasks j).status = TaskSt.abort := by
      intro j hj hab
      rcases h.status_cases j hj with hp | hc | ⟨_, hrun⟩ <;>
        rw [hab] at * <;> simp_all
    have habortnil : abortList n { s with paused := true, running := none } = [] := by
      apply filter_range_eq_nil
      intro j hj
      simp only [decide_eq_true_eq]
      exact hnoabort j hj
    refine ⟨rfl, ⟨h.total_eq, rfl, rfl, h.nodup, h.queued_lt, h.queued_pending,
      h.pending_queued, ?_, ?_, ?_, ?_⟩⟩
    · intro i hi
      rcases h.status_cases i hi with hp | hc | ⟨hrun, _⟩
      · exact Or.inl hp
      · exact Or.inr (Or.inl hc)
      · rw [hr] at hrun
        cases hrun
    · intro i hi hab
      exact absurd hab (hnoabort i hi)
    · rw [habortnil]
      have := h.parts_count
      rw [hr] at this
      simpa using this
    · rcases h.settled_inv with ⟨hq, _, hst⟩ | ⟨hst, hne⟩
      · exact Or.inl ⟨hq, habortnil, hst⟩
      · refine Or.inr ⟨hst, Or.inl ?_⟩
        rcases hne with hne | hne
        · exact hne
        · exact absurd hr hne
  · -- the in-flight task i aborts; hgood rules out the empty queue
    have hq : s.queued ≠ [] := by
      rcases hgood with hq | hrn
      · exact hq
      · rw [hr] at hrn
        cases hrn
    have hilt : i < n := h.running_lt i hr
    have hinq : i ∉ s.queued := h.running_not_queued i hr
    refine ⟨rfl, ?_⟩
    show PInv n (idleCheck
      { s with
        paused := true
        tasks := fun j => if j = i then ⟨TaskSt.abort, (s.tasks j).gen⟩
          else s.tasks j
        progress := fun j => if j = i then 0 else s.progress j
        running := none })
    set s3 : PassState :=
      { s with
        paused := true
        tasks := fun j => if j = i then ⟨TaskSt.abort, (s.tasks j).gen⟩
          else s.tasks j
        progress := fun j => if j = i then 0 else s.progress j
        running := none } with hs3
    have hf := idleCheck_fields s3
    have hset : (idleCheck s3).settled = s3.settled :=
      idleCheck_settled_of_ne s3 (by
        intro hcon
        exact hq (by simpa [hs3] using hcon.1))
    have habort : abortList n (idleCheck s3) = [i] := by
      show (List.range n).filter _ = [i]
      have htasks : (idleCheck s3).tasks = s3.tasks := hf.2.1
      rw [htasks]
      apply filter_range_eq_singleton _ hilt
      · simp [hs3]
      · intro j hj hpj
        simp only [hs3, decide_eq_true_eq] at hpj
        by_cases hji : j = i
        · exact hji
        · rw [if_neg hji] at hpj
          rcases h.status_cases j hj with hp | hc | ⟨_, hrun⟩ <;> simp_all
    have hsettled_old : s.settled = none := by
      rcases h.settled_inv with ⟨_, hrn, _⟩ | ⟨hst, _⟩
      · rw [hr] at hrn
        cases hrn
      · exact hst
    refine ⟨?_, ?_, ?_, ?_, ?_, ?_, ?_, ?_, ?_, ?_, ?_⟩
    · rw [hf.1]
      exact h.total_eq
    · rw [hf.2.2.2.2.2.1]
    · rw [hf.2.2.2.1]
    · rw [hf.2.2.1]
      exact h.nodup
    · intro j hj
      rw [hf.2.2.1] at hj
      exact h.queued_lt j hj
    · intro j hj
      rw [hf.2.2.1] at hj
      rw [hf.2.1]
      simp only [hs3]
      rw [if_neg (by rintro rfl; exact hinq hj)]
      exact h.queued_pending j hj
    · intro j hjlt hjp
      rw [hf.2.1] at hjp
      rw [hf.2.2.1]
      simp only [hs3] at hjp
      by_cases hji : j = i
      · rw [if_pos hji] at hjp
        cases hjp
      · rw [if_neg hji] at hjp
        exact h.pending_queued j hjlt hjp
    · intro j hjlt
      rw [hf.2.1]
      simp only [hs3]
      by_cases hji : j = i
      · rw [if_pos hji]
        exact Or.inr (Or.inr rfl)
      · rw [if_neg hji]
        rcases h.status_cases j hjlt with hp | hc | ⟨hrun, _⟩
        · exact Or.inl hp
        · exact Or.inr (Or.inl hc)
        · rw [hr] at hrun
          rw [Option.some_inj] at hrun
          exact absurd hrun.symm hji
    · intro j hjlt hjab
      rw [hf.2.1] at hjab
      rw [hf.2.2.1]
      simp only [hs3] at hjab
      by_cases hji : j = i
      · subst hji
        simpa [hs3] using fun hmem => hinq hmem
      · rw [if_neg hji] at hjab
        rcases h.status_cases j hjlt with hp | hc | ⟨_, hrun⟩ <;> simp_all
    · rw [habort, hf.2.2.2.2.1, hf.2.2.1]
      have := h.parts_count
      rw [hr] at this
      have h2 : s.parts.length + s.queued.length + 1 = n := by simpa using this
      simpa [hs3] using h2
    · right
      refine ⟨?_, Or.inl ?_⟩
      · rw [hset]
        simpa [hs3] using hsettled_old
      · rw [hf.2.2.1]
        simpa [hs3] using hq

theorem resume_inv {n : Nat} {q : PassState} (h : PInv n q) :
    (Uploader.resume ⟨.paused, q⟩).1.status = .running ∧
    Inv n (Uploader.resume ⟨.paused, q⟩).1.pass ∧
    (Uploader.resume ⟨.paused, q⟩).1.pass.queued.length ≤ n := by
  unfold Uploader.resume
  rw [if_pos rfl]
  dsimp only
  rw [h.total_eq]
  show Status.running = Status.running ∧
    Inv n (idleCheck (resumedPass n q)) ∧
    (idleCheck (resumedPass n q)).queued.length ≤ n
  have hf := idleCheck_fields (resumedPass n q)
  have hAmem : ∀ j ∈ abortList n q, j < n ∧ (q.tasks j).status = TaskSt.abort := by
    intro j hj
    unfold abortList at hj
    rw [List.mem_filter] at hj
    exact ⟨List.mem_range.1 hj.1, by simpa using hj.2⟩
  have hAnodup : (abortList n q).Nodup := (List.nodup_range n).filter _
  have hdisj : ∀ j ∈ q.queued, j ∉ abortList n q := by
    intro j hjq hjA
    have h1 := h.queued_pending j hjq
    have h2 := (hAmem j hjA).2
    rw [h1] at h2
    cases h2
  have habmem : ∀ j, j < n → (q.tasks j).status = TaskSt.abort →
      j ∈ abortList n q := by
    intro j hj hab
    unfold abortList
    rw [List.mem_filter]
    exact ⟨List.mem_range.2 hj, by simpa using hab⟩
  have hqueued : (idleCheck (resumedPass n q)).queued = q.queued ++ abortList n q := by
    rw [hf.2.2.1]
    rfl
  have htasks : (idleCheck (resumedPass n q)).tasks = (resumedPass n q).tasks :=
    hf.2.1
  refine ⟨rfl, ⟨?_, ?_, ?_, ?_, ?_, ?_, ?_, ?_, ?_, ?_, ?_⟩, ?_⟩
  · rw [hf.1]
    rfl
  · rw [hf.2.2.2.2.2.1]
    rfl
  · rw [hf.2.2.2.1]
    exact h.no_running
  · rw [hqueued]
    rw [List.nodup_append]
    exact ⟨h.nodup, hAnodup, fun j hjq hjA => hdisj j hjq hjA⟩
  · intro j hj
    rw [hqueued] at hj
    rcases List.mem_append.1 hj with hjq | hjA
    · exact h.queued_lt j hjq
    · exact (hAmem j hjA).1
  · intro j hj
    rw [hqueued] at hj
    rw [htasks]
    show (if (q.tasks j).status = TaskSt.abort
      then (⟨.pending, (q.tasks j).gen + 1⟩ : PTask) else q.tasks j).status = .pending
    rcases List.mem_append.1 hj with hjq | hjA
    · rw [if_neg (by rw [h.queued_pending j hjq]; intro hcon; cases hcon)]
      exact h.queued_pending j hjq
    · rw [if_pos (hAmem j hjA).2]
  · intro j hjlt hjp
    rw [htasks] at hjp
    rw [hqueued]
    rw [List.mem_append]
    by_cases hab : (q.tasks j).status = TaskSt.abort
    · exact Or.inr (habmem j hjlt hab)
    · left
      apply h.pending_queued j hjlt
      have : (resumedPass n q).tasks j = q.tasks j := by
        unfold resumedPass
        simp only
        rw [if_neg hab]
      rw [this] at hjp
      exact hjp
  · intro j hjlt
    rw [htasks]
    show (if (q.tasks j).status = TaskSt.abort
      then (⟨.pending, (q.tasks j).gen + 1⟩ : PTask) else q.tasks j).status = .pending ∨
      (if (q.tasks j).status = TaskSt.abort
      then (⟨.pending, (q.tasks j).gen + 1⟩ : PTask) else q.tasks j).status = .completed
    by_cases hab : (q.tasks j).status = TaskSt.abort
    · rw [if_pos hab]
      exact Or.inl rfl
    · rw [if_neg hab]
      rcases h.status_pca j hjlt with hp | hc | ha
      · exact Or.inl hp
      · exact Or.inr hc
      · exact absurd ha hab
  · rw [hf.2.2.2.2.1, hqueued]
    show q.parts.length + (q.queued ++ abortList n q).length = n
    rw [List.length_append]
    have := h.count_eq
    omega
  · intro hqe
    rw [hqueued] at hqe
    rcases List.append_eq_nil.1 hqe with ⟨hqnil, hAnil⟩
    rcases h.settled_cases with ⟨_, _, hst⟩ | ⟨_, hne⟩
    · exact idleCheck_settled_keep (resumedPass n q) .resolvedTrue hst
    · rcases hne with hne | hne
      · exact absurd hqnil hne
      · exact absurd hAnil hne
  · intro hqe
    rw [hqueued] at hqe
    have hset := idleCheck_settled_of_ne (resumedPass n q) (by
      intro hcon
      apply hqe
      have := hcon.1
      rw [hqueued] at *
      exact this)
    rw [hset]
    show q.settled = none
    rcases h.settled_cases with ⟨hq1, hA1, _⟩ | ⟨hst, _⟩
    · exfalso
      apply hqe
      rw [hq1, hA1]
      rfl
    · exact hst
  · rw [hqueued]
    rw [List.length_append]
    have := h.count_eq
    omega

/-- What `resume` does to each aborted task: fresh controller
(generation + 1), status back to `pending`, re-added to the queue
(uploader.ts lines 676-688). -/
theorem resume_aborted_details {q : PassState} (i : Nat)
    (hi : i < q.total) (ha : (q.tasks i).status = TaskSt.abort) :
    ((Uploader.resume ⟨.paused, q⟩).1.pass.tasks i).status = .pending ∧
    ((Uploader.resume ⟨.paused, q⟩).1.pass.tasks i).gen = (q.tasks i).gen + 1 ∧
    i ∈ (Uploader.resume ⟨.paused, q⟩).1.pass.queued := by
  unfold Uploader.resume
  rw [if_pos rfl]
  dsimp only
  set p1 : PassState :=
    { q with
      tasks := (fun j =>
        if (q.tasks j).status = TaskSt.abort then ⟨.pending, (q.tasks j).gen + 1⟩
        else q.tasks j)
      queued := q.queued ++ (List.range q.total).filter
        (fun j => (q.tasks j).status = TaskSt.abort) } with hp1
  have hf := idleCheck_fields { p1 with paused := false }
  refine ⟨?_, ?_, ?_⟩
  · rw [hf.2.1]
    show (if (q.tasks i).status = TaskSt.abort
      then (⟨.pending, (q.tasks i).gen + 1⟩ : PTask) else q.tasks i).status = .pending
    rw [if_pos ha]
  · rw [hf.2.1]
    show (if (q.tasks i).status = TaskSt.abort
      then (⟨.pending, (q.tasks i).gen + 1⟩ : PTask) else q.tasks i).gen
      = (q.tasks i).gen + 1
    rw [if_pos ha]
  · rw [hf.2.2.1]
    show i ∈ q.queued ++ (List.range q.total).filter
      (fun j => (q.tasks j).status = TaskSt.abort)
    rw [List.mem_append]
    right
    rw [List.mem_filter]
    exact ⟨List.mem_range.2 hi, by simpa using ha⟩

/-- Claim C4, amended: under a deterministic transport on which every chunk
attempt succeeds, `pause()` during the chunk pass followed by `resume()`
yields the same outcome as an uninterrupted run — provided that at the
moment of the pause at least one chunk task is still waiting in the queue,
or no chunk is in flight.  Then: `resume()` (valid only from `paused`)
re-submits every aborted chunk task with a fresh cancellation handle
(controller generation + 1) and returns the status to `running`; the
interrupted pass still resolves `true`, exactly as the uninterrupted run,
so the session continues identically — in particular, with a synchronous
finish response, `upload()` completes with the same final file id
(`completedInfo`, independent of the pause).
(Without the proviso — pausing while the last queued work is in flight —
p-queue's `idle` fires during the pause, the pass resolves `false`, and
`upload()` returns `undefined` without completing; see the
counterexample.) -/
theorem pause_resume_refinement (n j : Nat) (out : Nat → ChunkOutcome)
    (len : Nat → Nat) (hn : 1 ≤ n)
    (hout : ∀ i, i < n → out i = ChunkOutcome.completed)
    (hgood : (runSteps out len j (initPass n)).queued ≠ [] ∨
      (runSteps out len j (initPass n)).running = none) :
    (resumedSession n j out len).status = .running ∧
    (∀ i, i < n →
      ((pausedSession n j out len).pass.tasks i).status = TaskSt.abort →
      ((resumedSession n j out len).pass.tasks i).status = .pending ∧
      ((resumedSession n j out len).pass.tasks i).gen =
        ((pausedSession n j out len).pass.tasks i).gen + 1 ∧
      i ∈ (resumedSession n j out len).pass.queued) ∧
    (runSteps out len (2 * n) (resumedSession n j out len).pass).settled =
      some .resolvedTrue ∧
    (runSteps out len (2 * n) (initPass n)).settled = some .resolvedTrue ∧
    (∀ env resp target,
      afterPass env resp target .running
        ((runSteps out len (2 * n) (resumedSession n j out len).pass).settled) =
      afterPass env resp target .running
        ((runSteps out len (2 * n) (initPass n)).settled)) ∧
    (∀ env resp target fr, env.finish = Except.ok fr → fr.asyncUpload = false →
      (afterPass env resp target .running (some PassResult.resolvedTrue)).1 =
        .ok (some (completedInfo resp target env.filename))) := by
  have hInv2 : Inv2 n (runSteps out len j (initPass n)) :=
    inv2_runSteps (inv2_init (by omega)) hout j
  obtain ⟨hst2, hPInv⟩ := pause_pinv hInv2 hgood
  have hS2 : pausedSession n j out len =
      ⟨.paused, (pausedSession n j out len).pass⟩ := by
    rcases hq : pausedSession n j out len with ⟨st, pa⟩
    have h2 : st = .paused := by
      have h3 := hst2
      rw [show (Uploader.pause (Session.mk .running
        (runSteps out len j (initPass n)))).1 = pausedSession n j out len
        from rfl] at h3
      rw [hq] at h3
      exact h3
    rw [h2]
  have hPInv2 : PInv n (pausedSession n j out len).pass := hPInv
  have hres := resume_inv hPInv2
  rw [← hS2] at hres
  obtain ⟨hst3, hInvR, hlenR⟩ := hres
  have hdrain1 := (@drain n out len hout n (resumedSession n j out len).pass
    hInvR hlenR).2.2
  have hdrain2 := (@drain n out len hout n (initPass n)
    (inv_of_inv2_none (inv2_init (by omega)) rfl) (by simp [initPass])).2.2
  refine ⟨hst3, ?_, hdrain1, hdrain2, ?_, ?_⟩
  · intro i hi hab
    have hdet := @resume_aborted_details (pausedSession n j out len).pass i
      (by rw [hPInv2.total_eq]; exact hi) hab
    rw [← hS2] at hdet
    exact hdet
  · intro env resp target
    rw [hdrain1, hdrain2]
  · intro env resp target fr hfr hasync
    unfold afterPass
    rw [hfr]
    simp [hasync]

/-- Counterexample to C4 as stated: a single-chunk session paused while
that chunk is in flight (after 1 scheduler step the queue is empty).  The
abort empties the queue, p-queue fires `idle` during the pause, and the
pass promise resolves `false` once and for all — `resume()` re-runs the
chunk but the promise cannot settle again.  The uninterrupted run resolves
`true` and completes with file id `"F1"`, while the interrupted run makes
`upload()` return `undefined`: not the same outcome, and no completion. -/
theorem pause_resume_last_chunk_counterexample :
    (runSteps (fun _ => ChunkOutcome.completed) (fun _ => 4) 2
      (initPass 1)).settled = some .resolvedTrue ∧
    (runSteps (fun _ => ChunkOutcome.completed) (fun _ => 4) 2
      (resumedSession 1 1 (fun _ => ChunkOutcome.completed)
        (fun _ => 4)).pass).settled = some .resolvedFalse ∧
    some PassResult.resolvedFalse ≠ some PassResult.resolvedTrue ∧
    (afterPass envFull
      { fileID := some ("F1"), reuse := false, preuploadID := "pre", sliceSize := 4 }
      none .paused (some .resolvedFalse)).1 = .ok none ∧
    (afterPass envFull
      { fileID := some ("F1"), reuse := false, preuploadID := "pre", sliceSize := 4 }
      none .running (some .resolvedTrue)).1 = .ok (some ("F1", "file.bin")) := by
  refine ⟨rfl, rfl, by decide, rfl, rfl⟩

/-- Witness for the amended C4: a 2-chunk pass paused after one step (the
first chunk is in flight, the second still queued). -/
theorem pause_resume_refinement_witness :
    ((1 : Nat) ≤ 2 ∧
     ((runSteps (fun _ => ChunkOutcome.completed) (fun _ => 4) 1
        (initPass 2)).queued ≠ [] ∨
      (runSteps (fun _ => ChunkOutcome.completed) (fun _ => 4) 1
        (initPass 2)).running = none)) ∧
    (resumedSession 2 1 (fun _ => ChunkOutcome.completed)
      (fun _ => 4)).status = .running ∧
    (runSteps (fun _ => ChunkOutcome.completed) (fun _ => 4) (2 * 2)
      (resumedSession 2 1 (fun _ => ChunkOutcome.completed)
        (fun _ => 4)).pass).settled = some .resolvedTrue ∧
    (runSteps (fun _ => ChunkOutcome.completed) (fun _ => 4) (2 * 2)
      (initPass 2)).settled = some .resolvedTrue :=
  have h := pause_resume_refinement 2 1 (fun _ => ChunkOutcome.completed)
    (fun _ => 4) (by decide) (fun i _ => rfl)
    (Or.inl (by decide))
  ⟨⟨by decide, Or.inl (by decide)⟩, h.1, h.2.2.1, h.2.2.2.1⟩

/-- Claim C7: a chunk attempt that fails for any reason other than explicit
cancellation is retried after the fixed `retryDelay`, re-running the whole
operation — in particular re-requesting the destination URL on every
attempt that reaches that step (`urlSum`) — up to `retryTimes` retries.
A chunk whose first `k ≤ retryTimes` attempts fail and whose next attempt
succeeds completes with `k + 1` attempts and `k` retry sleeps; only after
all `retryTimes + 1` attempts have failed is the last error propagated;
and a pass whose chunks all end `completed` resolves `true`, so the
session still completes successfully (uploader.ts lines 436-498,
413-427). -/
theorem chunk_retry_policy (rT rD k : Nat) (att : Nat → AttemptStep) :
    (k ≤ rT → (∀ r, r < k → isRetryableFailure (att r) = true) →
      att k = .ok →
      Uploader.uploadChunk att rT rD 0 =
        (.completed, ⟨k + 1, urlSum att 0 (k + 1), k * rD⟩)) ∧
    ((∀ r, r ≤ rT → isRetryableFailure (att r) = true) →
      (Uploader.uploadChunk att rT rD 0).1 = .errored (failMsg (att rT)) ∧
      (Uploader.uploadChunk att rT rD 0).2.attempts = rT + 1 ∧
      (Uploader.uploadChunk att rT rD 0).2.sleepTotal = rT * rD) ∧
    (∀ n out len, 0 < n → (∀ i, i < n → out i = ChunkOutcome.completed) →
      (runSteps out len (2 * n) (initPass n)).settled =
        some PassResult.resolvedTrue) := by
  refine ⟨?_, ?_, ?_⟩
  · intro hk hfail hok
    apply uploadChunk_retries_then_succeeds att rT rD k 0 (by omega)
    · intro r h1 h2
      exact hfail r (by omega)
    · rw [Nat.zero_add]
      exact hok
  · intro hfail
    exact uploadChunk_exhausts_retries att rT rD hfail
  · intro n out len hn hout
    exact (drain hout n (initPass n)
      (inv_of_inv2_none (inv2_init hn) rfl) (by simp [initPass])).2.2

/-- Witness for C7 on the scenario: chunk 2 of 3 fails twice then succeeds
on the third attempt (`retryTimes = 3`, `retryDelay = 100`); the session's
pass still resolves `true`. -/
theorem chunk_retry_policy_witness :
    (2 ≤ 3 ∧
     Uploader.uploadChunk att2 3 100 0 =
       (.completed, ⟨2 + 1, urlSum att2 0 (2 + 1), 2 * 100⟩)) ∧
    (runSteps
      (fun i => (Uploader.uploadChunk
        (if i = 1 then att2 else fun _ => AttemptStep.ok) 3 100 0).1)
      (fun _ => 4) (2 * 3) (initPass 3)).settled =
        some PassResult.resolvedTrue :=
  ⟨⟨by decide,
    (chunk_retry_policy 3 100 2 att2).1 (by decide)
      (by
        intro r hr
        interval_cases r <;> rfl) rfl⟩,
   (chunk_retry_policy 3 100 2 att2).2.2 3
     (fun i => (Uploader.uploadChunk
       (if i = 1 then att2 else fun _ => AttemptStep.ok) 3 100 0).1)
     (fun _ => 4) (by decide)
     (by
       intro i hi
       interval_cases i <;> rfl)⟩

end Pan123
